import Mathlib

/-!
# Verification of the TKT kernel configuration core (`TKT/kernel_config.py`)

This file gives a shallow embedding of the `KernelConfig` class of
`src/TKT/kernel_config.py` and proves/refutes the frozen claims about it.

Modelling choices:
* File contents are `List Char`; the filesystem visible to the component is a
  record `FS` holding the existence of the source directory, the directory
  entries used as kernel-source markers, and the contents of `.config` and
  `.config.backup` (`none` = file absent).
* External nondeterminism (I/O exceptions caught by the `try/except` blocks,
  and the outcomes and side effects of the two `subprocess.run` invocations)
  is supplied by a `World` record.  Each fallible primitive is consulted at
  most once per workflow run, so a flat record of per-operation oracles is
  adequate.
* Python `dict`s are association lists (`ConfigMap`) whose keys are intended
  to be distinct; insertion (`d[k] = v`) is `insertKV`, which updates in
  place or appends, exactly like CPython's insertion-ordered dict.
* `str.strip()` is modelled by `lineTrim` over characters
  (`Char.isWhitespace` covers the whitespace occurring in config files);
  line iteration over a text file is `splitLines` (split at each newline).
* Status messages, the invoked external commands, and the two file contents
  are all tracked in the session state `KC`, mirroring the Python object
  plus the durable filesystem state it manipulates.
-/

/-- Python `str.strip()` on a list of characters: drop leading and trailing
whitespace. -/
def lineTrim (l : List Char) : List Char :=
  ((l.dropWhile Char.isWhitespace).reverse.dropWhile Char.isWhitespace).reverse

/-- Split a text into the list of its lines, cutting at every newline
character (models line iteration over an opened text file). -/
def splitLines : List Char → List (List Char)
  | [] => [[]]
  | c :: cs =>
    if c = '\n' then [] :: splitLines cs
    else
      match splitLines cs with
      | [] => [[c]]
      | l :: ls => (c :: l) :: ls

/-- Rebuild a text from lines, terminating every line with a newline
(the shape produced by `write_config`, which ends each `f.write` chunk
with a newline). -/
def joinLines (ls : List (List Char)) : List Char :=
  ls.foldr (fun l acc => l ++ '\n' :: acc) []

/-- The parsed contents of a `.config` file: a Python `dict` from option name
to raw value, as an insertion-ordered association list with distinct keys. -/
abbrev ConfigMap := List (String × String)

/-- Python `d[k] = v` on an insertion-ordered dict: overwrite in place if the
key is present, append otherwise. -/
def insertKV (m : ConfigMap) (k v : String) : ConfigMap :=
  if m.any (fun p => p.1 == k) then
    m.map (fun p => if p.1 == k then (k, v) else p)
  else m ++ [(k, v)]

/-- Python `d.get(k)`: first binding of the key, if any. -/
def lookupKV (m : ConfigMap) (k : String) : Option String :=
  (m.find? (fun p => p.1 == k)).map Prod.snd

/-- Python `d[k]` for a key known to be present (defaults to `""` to stay
total). -/
def lookupD (m : ConfigMap) (k : String) : String :=
  (lookupKV m k).getD ""

/-- Equality of two association lists as Python dicts: each binding of one is
a binding of the other. -/
def mapEquiv (m₁ m₂ : ConfigMap) : Bool :=
  m₁.all (fun p => lookupKV m₂ p.1 == some p.2) &&
    m₂.all (fun p => lookupKV m₁ p.1 == some p.2)

/-- One iteration of the parsing loop of `read_config`
(`kernel_config.py:190-199`): strip the line; skip empty, `#`- and
`//`-prefixed lines; split the rest at the first `=` and insert the trimmed
key/value pair. -/
def parseLine (m : ConfigMap) (raw : List Char) : ConfigMap :=
  if (lineTrim raw).isEmpty then m
  else if (lineTrim raw).head? = some '#' then m
  else if (lineTrim raw).take 2 = ['/', '/'] then m
  else if (lineTrim raw).contains '=' then
    insertKV m (String.mk (lineTrim ((lineTrim raw).takeWhile (fun c => c != '='))))
      (String.mk (lineTrim (((lineTrim raw).dropWhile (fun c => c != '=')).tail)))
  else m

/-- The pure content of `KernelConfig.read_config`: fold the line parser over
the lines of the file. -/
def parseConfig (content : List Char) : ConfigMap :=
  (splitLines content).foldl parseLine []

/-- Lexicographic comparison of character lists by code point, the order
Python's `sorted` uses on strings. -/
def chLe : List Char → List Char → Bool
  | [], _ => true
  | _ :: _, [] => false
  | c :: cs, d :: ds => if c = d then chLe cs ds else decide (c < d)

/-- Strict lexicographic comparison of character lists by code point. -/
def chLt : List Char → List Char → Bool
  | [], [] => false
  | [], _ :: _ => true
  | _ :: _, [] => false
  | c :: cs, d :: ds => if c = d then chLt cs ds else decide (c < d)

/-- Python string `<=` (code-point lexicographic). -/
def strLe (a b : String) : Bool := chLe a.data b.data

/-- Python string `<` (code-point lexicographic). -/
def strLt (a b : String) : Bool := chLt a.data b.data

/-- Insert a string into a list sorted by `strLe`. -/
def insertSorted (k : String) : List String → List String
  | [] => [k]
  | x :: xs => if strLe k x then k :: x :: xs else x :: insertSorted k xs

/-- Sort a list of strings by `strLe` (insertion sort).  Python's `sorted`
on strings produces exactly the ascending code-point-lexicographic order,
which for the distinct keys of a dict is a unique list, so any correct sort
models it. -/
def sortStrings : List String → List String
  | [] => []
  | x :: xs => insertSorted x (sortStrings xs)

/-- `sorted(config_dict.keys())` in `write_config` (`kernel_config.py:229`). -/
def sortKeys (m : ConfigMap) : List String :=
  sortStrings (m.map Prod.fst)

/-- One `KEY=VALUE` line of `write_config` (`kernel_config.py:230`). -/
def renderLine (m : ConfigMap) (k : String) : List Char :=
  k.data ++ '=' :: (lookupD m k).data

/-- The fixed header block written by `write_config`
(`kernel_config.py:225-226`), as lines. -/
def headerLines : List (List Char) :=
  [['#'], "# Automatically generated file; DO NOT EDIT.".data, ['#'],
    "# Kernel configuration".data, ['#'], []]

/-- All lines of the file produced by `write_config`: the header block then
the entries in sorted key order. -/
def configLines (m : ConfigMap) : List (List Char) :=
  headerLines ++ (sortKeys m).map (renderLine m)

/-- The full text produced by `write_config` for a given map. -/
def serializeConfig (m : ConfigMap) : List Char :=
  joinLines (configLines m)

/-- Outcome of a `subprocess.run` invocation as observed by the code:
a completed process with exit code and captured stderr, a raised
`TimeoutExpired`, or any other raised exception. -/
inductive ProcOutcome where
  | exits (code : Nat) (stderr : String)
  | timedOut
  | raises (msg : String)
deriving DecidableEq

/-- The filesystem state the component reads and writes: existence of the
source directory, its entries used as kernel-source markers, and the contents
of `.config` and `.config.backup` (`none` = absent). -/
structure FS where
  dirExists : Bool
  entries : List String
  config : Option (List Char)
  backup : Option (List Char)
deriving DecidableEq

/-- Oracle for the external world during one workflow run: whether each
caught-exception site raises (and with what message), and the outcome and
`.config` side effect of each of the two external commands.  A `some c`
side effect means the command leaves `.config` with content `c`; `none`
means it leaves the file untouched.  The side effect applies whenever the
process actually ran (completed or timed out), not when invocation itself
raised. -/
structure World where
  backupCopyExc : Option String
  restoreCopyExc : Option String
  readExc : Option String
  writeExc : Option String
  defconfig : ProcOutcome
  defconfigWrites : Option (List Char)
  olddefconfig : ProcOutcome
  olddefconfigWrites : Option (List Char)
deriving DecidableEq

/-- The `KernelConfig` session object together with the filesystem it acts
on: constructor arguments, status log, and a trace of the external commands
invoked (for frame conditions). -/
structure KC where
  kernel_source_dir : String
  kernel_version : String
  fs : FS
  status_messages : List String
  procs : List String
deriving DecidableEq

/-- `KernelConfig.__init__` (`kernel_config.py:42-47`): fresh status log. -/
def initKC (dir ver : String) (fs : FS) : KC :=
  { kernel_source_dir := dir, kernel_version := ver, fs := fs,
    status_messages := [], procs := [] }

/-- `KernelConfig.add_status` (`kernel_config.py:49-61`): append, then pop
the oldest entry if the log exceeds 10. -/
def add_status (kc : KC) (message : String) : KC :=
  let msgs := kc.status_messages ++ [message]
  { kc with status_messages := if msgs.length > 10 then msgs.drop 1 else msgs }

/-- The last `n` elements of a list (Python `l[-n:]`). -/
def lastN (n : Nat) (l : List α) : List α :=
  l.drop (l.length - n)

/-- `KernelConfig.get_status` (`kernel_config.py:63-72`): the last five
status messages joined by newline. -/
def get_status (kc : KC) : String :=
  String.intercalate "\n" (lastN 5 kc.status_messages)

/-- `KernelConfig.validate_kernel_source` (`kernel_config.py:74-96`). -/
def validate_kernel_source (kc : KC) : Bool × KC :=
  if !kc.fs.dirExists then
    (false, add_status kc
      ("Error: Kernel source directory not found: " ++ kc.kernel_source_dir))
  else if !(["Kconfig", "Makefile", "init"].any fun f => kc.fs.entries.contains f) then
    (false, add_status kc "Error: Directory does not appear to contain kernel source")
  else
    (true, add_status kc ("Valid kernel source: " ++ kc.kernel_source_dir))

/-- Replace the content of `.config` in the session's filesystem. -/
def setConfig (kc : KC) (c : Option (List Char)) : KC :=
  { kc with fs := { kc.fs with config := c } }

/-- Apply the `.config` side effect of an external command. -/
def procWrite (kc : KC) (o : Option (List Char)) : KC :=
  match o with
  | some c => setConfig kc (some c)
  | none => kc

/-- `KernelConfig.ensure_config_exists` (`kernel_config.py:98-134`). -/
def ensure_config_exists (kc : KC) (w : World) : Bool × KC :=
  if kc.fs.config.isSome then
    (true, add_status kc "Found existing .config file")
  else
    let kc := add_status kc "No .config found, running 'make defconfig'..."
    let kc := { kc with procs := kc.procs ++ ["make defconfig"] }
    match w.defconfig with
    | .exits code stderr =>
      let kc := procWrite kc w.defconfigWrites
      if code = 0 then
        (true, add_status kc "Successfully generated default config")
      else
        (false, add_status kc ("make defconfig failed: " ++ stderr))
    | .timedOut =>
      let kc := procWrite kc w.defconfigWrites
      (false, add_status kc "make defconfig timed out after 5 minutes")
    | .raises e =>
      (false, add_status kc ("Error running make defconfig: " ++ e))

/-- `KernelConfig.backup_config` (`kernel_config.py:136-153`): copy
`.config` to `.config.backup` if `.config` exists; a raised copy error is
caught. -/
def backup_config (kc : KC) (w : World) : Bool × KC :=
  match kc.fs.config with
  | some c =>
    match w.backupCopyExc with
    | some e => (false, add_status kc ("Failed to backup config: " ++ e))
    | none =>
      (true, add_status { kc with fs := { kc.fs with backup := some c } }
        "Created backup of .config")
  | none => (false, kc)

/-- `KernelConfig.restore_config` (`kernel_config.py:155-172`): copy
`.config.backup` to `.config` if the backup exists; a raised copy error is
caught. -/
def restore_config (kc : KC) (w : World) : Bool × KC :=
  match kc.fs.backup with
  | some c =>
    match w.restoreCopyExc with
    | some e => (false, add_status kc ("Failed to restore config: " ++ e))
    | none => (true, add_status (setConfig kc (some c)) "Restored .config from backup")
  | none => (false, kc)

/-- `KernelConfig.read_config` (`kernel_config.py:174-206`): empty map if
`.config` is absent; empty map with an error status if opening/reading
raises; otherwise the parsed contents. -/
def read_config (kc : KC) (w : World) : ConfigMap × KC :=
  match kc.fs.config with
  | none => ([], kc)
  | some content =>
    match w.readExc with
    | some e => ([], add_status kc ("Error reading config: " ++ e))
    | none =>
      let d := parseConfig content
      (d, add_status kc ("Read " ++ toString d.length ++ " config options"))

/-- `KernelConfig.write_config` (`kernel_config.py:208-237`): overwrite
`.config` with the header block and the entries in sorted key order; a
raised I/O error is caught and reported as `false`. -/
def write_config (kc : KC) (w : World) (m : ConfigMap) : Bool × KC :=
  match w.writeExc with
  | some e => (false, add_status kc ("Error writing config: " ++ e))
  | none =>
    (true, add_status (setConfig kc (some (serializeConfig m)))
      ("Successfully wrote " ++ toString m.length ++ " config options"))

/-- The update loop of `modify_config` (`kernel_config.py:261-263`):
`config_dict[key] = value` plus a status message per change. -/
def applyChange (p : ConfigMap × KC) (kv : String × String) : ConfigMap × KC :=
  (insertKV p.1 kv.1 kv.2, add_status p.2 ("Set " ++ kv.1 ++ "=" ++ kv.2))

/-- The pure effect of the update loop on the map alone. -/
def applyChanges (m changes : ConfigMap) : ConfigMap :=
  changes.foldl (fun acc kv => insertKV acc kv.1 kv.2) m

/-- `KernelConfig.modify_config` (`kernel_config.py:239-266`): fail fast if
`.config` is absent, else read, apply each change, and write back. -/
def modify_config (kc : KC) (w : World) (changes : ConfigMap) : Bool × KC :=
  if kc.fs.config.isNone then
    (false, add_status kc "No config file to modify")
  else
    let r := read_config kc w
    let s := changes.foldl applyChange r
    write_config s.2 w s.1

/-- `KernelConfig.run_olddefconfig` (`kernel_config.py:268-304`). -/
def run_olddefconfig (kc : KC) (w : World) : (Bool × String) × KC :=
  let kc := add_status kc "Running 'make olddefconfig' to resolve dependencies..."
  let kc := { kc with procs := kc.procs ++ ["make olddefconfig"] }
  match w.olddefconfig with
  | .exits code stderr =>
    let kc := procWrite kc w.olddefconfigWrites
    if code = 0 then
      ((true, "Successfully resolved config dependencies"),
        add_status kc "Successfully resolved config dependencies")
    else
      ((false, "make olddefconfig failed: " ++ stderr),
        add_status kc ("make olddefconfig failed: " ++ stderr))
  | .timedOut =>
    let kc := procWrite kc w.olddefconfigWrites
    ((false, "make olddefconfig timed out after 3 minutes"),
      add_status kc "make olddefconfig timed out after 3 minutes")
  | .raises e =>
    ((false, "Error running make olddefconfig: " ++ e),
      add_status kc ("Error running make olddefconfig: " ++ e))

/-- `KernelConfig.apply_config_changes` (`kernel_config.py:306-345`):
validate, ensure a config exists, back it up, apply the changes, resolve
dependencies, restoring from backup on a mutation or resolution failure. -/
def apply_config_changes (kc : KC) (w : World) (changes : ConfigMap) :
    (Bool × String) × KC :=
  let kc := add_status kc
    ("Applying config changes for kernel " ++ kc.kernel_version)
  let v := validate_kernel_source kc
  if !v.1 then
    ((false, "Invalid kernel source directory"), v.2)
  else
    let e := ensure_config_exists v.2 w
    if !e.1 then
      ((false, "Failed to create initial config"), e.2)
    else
      let b := backup_config e.2 w
      let m := modify_config b.2 w changes
      if !m.1 then
        let r := restore_config m.2 w
        ((false, "Failed to apply config changes"), r.2)
      else
        let o := run_olddefconfig m.2 w
        if !o.1.1 then
          let r := restore_config o.2 w
          ((false, "Config validation failed: " ++ o.1.2), r.2)
        else
          ((true, "Successfully applied and validated config changes"), o.2)

/-- `configure_kernel_with_changes` (`kernel_config.py:349-370`): construct
a session and run the workflow. -/
def configure_kernel_with_changes (dir ver : String) (fs : FS) (w : World)
    (changes : ConfigMap) : (Bool × String) × KC :=
  apply_config_changes (initKC dir ver fs) w changes

/-! ## Pure characterizations used by the theorems -/

/-- The boolean computed by `validate_kernel_source`, as a function of the
filesystem alone. -/
def validOK (fs : FS) : Bool :=
  fs.dirExists && (["Kconfig", "Makefile", "init"].any fun f => fs.entries.contains f)

/-- The boolean computed by `ensure_config_exists`. -/
def ensureOK (fs : FS) (w : World) : Bool :=
  if fs.config.isSome then true
  else
    match w.defconfig with
    | .exits code _ => code = 0
    | _ => false

/-- The content of `.config` after `ensure_config_exists`. -/
def configAfterEnsure (fs : FS) (w : World) : Option (List Char) :=
  if fs.config.isSome then fs.config
  else
    match w.defconfig with
    | .raises _ => fs.config
    | _ =>
      match w.defconfigWrites with
      | some c => some c
      | none => fs.config

/-- The boolean computed by `modify_config` for a given `.config` content:
the file must exist and the write must not raise (a swallowed read error
does not make `modify_config` fail). -/
def modifyOK (c : Option (List Char)) (w : World) : Bool :=
  c.isSome && w.writeExc.isNone

/-- The boolean computed by `run_olddefconfig`. -/
def olddefOK (w : World) : Bool :=
  match w.olddefconfig with
  | .exits code _ => code = 0
  | _ => false

/-- The message computed by `run_olddefconfig`. -/
def olddefMsg (w : World) : String :=
  match w.olddefconfig with
  | .exits code stderr =>
    if code = 0 then "Successfully resolved config dependencies"
    else "make olddefconfig failed: " ++ stderr
  | .timedOut => "make olddefconfig timed out after 3 minutes"
  | .raises e => "Error running make olddefconfig: " ++ e

/-- The `(success, message)` pair returned by `apply_config_changes`, as a
function of the initial filesystem and the world alone. -/
def applyResult (fs : FS) (w : World) : Bool × String :=
  if !validOK fs then (false, "Invalid kernel source directory")
  else if !ensureOK fs w then (false, "Failed to create initial config")
  else if !modifyOK (configAfterEnsure fs w) w then
    (false, "Failed to apply config changes")
  else if !olddefOK w then
    (false, "Config validation failed: " ++ olddefMsg w)
  else (true, "Successfully applied and validated config changes")

/-! ## Well-formedness of keys and values for the write→read round trip -/

/-- A key whose `KEY=VALUE` line parses back to the same key in this model:
stable under stripping, contains no `=` and no newline, and does not begin
one of the two comment markers.  Keys produced by `parseConfig` satisfy
this. -/
def rtKey (k : String) : Bool :=
  lineTrim k.data == k.data && !k.data.contains '=' && !k.data.contains '\n' &&
    k.data.head? != some '#' && k.data.take 2 != ['/', '/']

/-- A value whose `KEY=VALUE` line parses back to the same value: stable
under stripping and newline-free (it may contain `=`, since parsing splits
at the first `=`). -/
def rtVal (v : String) : Bool :=
  lineTrim v.data == v.data && !v.data.contains '\n'

/-- A key that survives the `write_config` → `read_config` round trip of the
source: `rtKey` together with nonemptiness and absence of carriage returns
(which the text-mode file layer of the source would translate). -/
def goodKey (k : String) : Bool :=
  !k.data.isEmpty && !k.data.contains '\r' && rtKey k

/-- A value that survives the round trip of the source: `rtVal` together
with absence of carriage returns. -/
def goodVal (v : String) : Bool :=
  !v.data.contains '\r' && rtVal v

/-! ## Order lemmas for the key comparator -/

theorem chLe_total (a b : List Char) : chLe a b = true ∨ chLe b a = true := by
  induction a generalizing b with
  | nil => left; rfl
  | cons c cs ih =>
    cases b with
    | nil => right; rfl
    | cons d ds =>
      by_cases h : c = d
      · subst h
        rcases ih ds with h1 | h1
        · left; simpa [chLe] using h1
        · right; simpa [chLe] using h1
      · rcases lt_trichotomy c d with hlt | heq | hgt
        · left; simp [chLe, h, hlt]
        · exact absurd heq h
        · right; simp [chLe, Ne.symm h, hgt]

theorem chLe_trans {a b c : List Char} (h₁ : chLe a b = true) (h₂ : chLe b c = true) :
    chLe a c = true := by
  induction a generalizing b c with
  | nil => rfl
  | cons x xs ih =>
    cases b with
    | nil => simp [chLe] at h₁
    | cons y ys =>
      cases c with
      | nil => simp [chLe] at h₂
      | cons z zs =>
        by_cases hxy : x = y
        · subst hxy
          by_cases hxz : x = z
          · subst hxz
            simp only [chLe, if_pos rfl] at h₁ h₂ ⊢
            exact ih h₁ h₂
          · simp only [chLe, if_pos rfl] at h₁
            simpa [chLe, hxz] using h₂
        · by_cases hyz : y = z
          · subst hyz
            simpa [chLe, hxy] using h₁
          · simp only [chLe, if_neg hxy, decide_eq_true_eq] at h₁
            simp only [chLe, if_neg hyz, decide_eq_true_eq] at h₂
            have hxz : x < z := lt_trans h₁ h₂
            simp [chLe, ne_of_lt hxz, hxz]

theorem chLe_antisymm {a b : List Char} (h₁ : chLe a b = true) (h₂ : chLe b a = true) :
    a = b := by
  induction a generalizing b with
  | nil =>
    cases b with
    | nil => rfl
    | cons y ys => simp [chLe] at h₂
  | cons x xs ih =>
    cases b with
    | nil => simp [chLe] at h₁
    | cons y ys =>
      by_cases hxy : x = y
      · subst hxy
        simp only [chLe, if_pos rfl] at h₁ h₂
        rw [ih h₁ h₂]
      · simp only [chLe, if_neg hxy, decide_eq_true_eq] at h₁
        simp only [chLe, if_neg (Ne.symm hxy), decide_eq_true_eq] at h₂
        exact absurd (lt_trans h₁ h₂) (lt_irrefl x)

theorem chLt_iff {a b : List Char} : chLt a b = true ↔ (chLe a b = true ∧ a ≠ b) := by
  induction a generalizing b with
  | nil =>
    cases b with
    | nil => simp [chLt, chLe]
    | cons y ys => simp [chLt, chLe]
  | cons x xs ih =>
    cases b with
    | nil => simp [chLt, chLe]
    | cons y ys =>
      by_cases hxy : x = y
      · subst hxy
        have h1 : chLt (x :: xs) (x :: ys) = chLt xs ys := by simp [chLt]
        have h2 : chLe (x :: xs) (x :: ys) = chLe xs ys := by simp [chLe]
        rw [h1, ih, h2]
        simp
      · simp only [chLt, chLe, if_neg hxy]
        simp [hxy]

theorem strLe_total (a b : String) : strLe a b = true ∨ strLe b a = true :=
  chLe_total a.data b.data

theorem strLe_trans {a b c : String} (h₁ : strLe a b = true) (h₂ : strLe b c = true) :
    strLe a c = true :=
  chLe_trans h₁ h₂

theorem strLe_antisymm {a b : String} (h₁ : strLe a b = true) (h₂ : strLe b a = true) :
    a = b := by
  cases a; cases b
  exact congrArg String.mk (chLe_antisymm h₁ h₂)

theorem strLt_iff {a b : String} : strLt a b = true ↔ (strLe a b = true ∧ a ≠ b) := by
  unfold strLt strLe
  rw [chLt_iff]
  constructor
  · rintro ⟨h1, h2⟩
    refine ⟨h1, fun h => h2 (by rw [h])⟩
  · rintro ⟨h1, h2⟩
    refine ⟨h1, fun h => h2 ?_⟩
    cases a; cases b
    exact congrArg String.mk h

/-! ## Sorting lemmas -/

theorem insertSorted_perm (k : String) (l : List String) :
    List.Perm (insertSorted k l) (k :: l) := by
  induction l with
  | nil => exact List.Perm.refl _
  | cons x xs ih =>
    unfold insertSorted
    by_cases h : strLe k x = true
    · simp [h]
    · simp only [h, if_false]
      exact (ih.cons x).trans (List.Perm.swap k x xs)

theorem sortStrings_perm (l : List String) : List.Perm (sortStrings l) l := by
  induction l with
  | nil => exact List.Perm.refl _
  | cons x xs ih =>
    exact (insertSorted_perm x (sortStrings xs)).trans (ih.cons x)

theorem mem_insertSorted {k y : String} {l : List String} :
    y ∈ insertSorted k l ↔ y = k ∨ y ∈ l := by
  rw [(insertSorted_perm k l).mem_iff]
  simp

theorem pairwise_insertSorted {k : String} {l : List String}
    (h : l.Pairwise (fun a b => strLe a b = true)) :
    (insertSorted k l).Pairwise (fun a b => strLe a b = true) := by
  induction l with
  | nil => simp [insertSorted]
  | cons x xs ih =>
    rw [List.pairwise_cons] at h
    unfold insertSorted
    by_cases hle : strLe k x = true
    · simp only [hle, if_true]
      refine List.Pairwise.cons ?_ (List.Pairwise.cons h.1 h.2)
      intro y hy
      rcases List.mem_cons.mp hy with rfl | hy
      · exact hle
      · exact strLe_trans hle (h.1 y hy)
    · simp only [hle, if_false]
      have hxk : strLe x k = true := (strLe_total k x).resolve_left hle
      refine List.Pairwise.cons ?_ (ih h.2)
      intro y hy
      rcases mem_insertSorted.mp hy with rfl | hy
      · exact hxk
      · exact h.1 y hy

theorem sortStrings_sorted (l : List String) :
    (sortStrings l).Pairwise (fun a b => strLe a b = true) := by
  induction l with
  | nil => simp [sortStrings]
  | cons x xs ih => exact pairwise_insertSorted ih

theorem sortStrings_eq_of_perm {l₁ l₂ : List String} (hp : List.Perm l₁ l₂) :
    sortStrings l₁ = sortStrings l₂ := by
  haveI : IsAntisymm String (fun a b => strLe a b = true) :=
    ⟨fun _ _ h₁ h₂ => strLe_antisymm h₁ h₂⟩
  exact List.eq_of_perm_of_sorted
    (((sortStrings_perm l₁).trans hp).trans (sortStrings_perm l₂).symm)
    (sortStrings_sorted l₁) (sortStrings_sorted l₂)

/-! ## Dictionary lemmas -/

theorem any_key_iff {m : ConfigMap} {k : String} :
    (m.any fun p => p.1 == k) = true ↔ k ∈ m.map Prod.fst := by
  simp only [List.any_eq_true, List.mem_map, beq_iff_eq]

theorem insertKV_of_not_mem {m : ConfigMap} {k v} (h : k ∉ m.map Prod.fst) :
    insertKV m k v = m ++ [(k, v)] := by
  unfold insertKV
  rw [if_neg]
  intro hc
  exact h (any_key_iff.mp hc)

theorem insertKV_of_mem {m : ConfigMap} {k v} (h : k ∈ m.map Prod.fst) :
    insertKV m k v = m.map (fun p => if p.1 == k then (k, v) else p) := by
  unfold insertKV
  rw [if_pos (any_key_iff.mpr h)]

theorem keys_insertKV (m : ConfigMap) (k v : String) :
    (insertKV m k v).map Prod.fst =
      if k ∈ m.map Prod.fst then m.map Prod.fst else m.map Prod.fst ++ [k] := by
  by_cases h : k ∈ m.map Prod.fst
  · rw [insertKV_of_mem h, if_pos h, List.map_map]
    apply List.map_congr_left
    intro p _
    by_cases hp : p.1 = k
    · simp [Function.comp, hp]
    · simp [Function.comp, hp]
  · rw [insertKV_of_not_mem h, if_neg h]
    simp

theorem nodup_keys_insertKV {m : ConfigMap} {k v}
    (h : (m.map Prod.fst).Nodup) : ((insertKV m k v).map Prod.fst).Nodup := by
  rw [keys_insertKV]
  by_cases hm : k ∈ m.map Prod.fst
  · rwa [if_pos hm]
  · rw [if_neg hm]
    refine List.Nodup.append h (List.nodup_singleton k) ?_
    intro a ha hb
    rw [List.mem_singleton] at hb
    exact hm (hb ▸ ha)

theorem find?_map_update_self (m : ConfigMap) (k v : String)
    (h : k ∈ m.map Prod.fst) :
    (m.map (fun p => if p.1 == k then (k, v) else p)).find? (fun q => q.1 == k)
      = some (k, v) := by
  induction m with
  | nil => simp at h
  | cons q ps ih =>
    rw [List.map_cons]
    by_cases hq : q.1 = k
    · have h1 : (if (q.1 == k) = true then (k, v) else q) = (k, v) := by simp [hq]
      rw [h1, List.find?_cons_of_pos _ (by simp)]
    · have h1 : (if (q.1 == k) = true then (k, v) else q) = q := by simp [hq]
      have hk : k ∈ ps.map Prod.fst := by
        rcases List.mem_map.mp h with ⟨p, hp, he⟩
        rcases List.mem_cons.mp hp with rfl | hp
        · exact absurd he hq
        · exact List.mem_map.mpr ⟨p, hp, he⟩
      rw [h1, List.find?_cons_of_neg _ (by simpa using hq)]
      exact ih hk

theorem find?_map_update_ne (m : ConfigMap) (k v k' : String) (h : k' ≠ k) :
    (m.map (fun p => if p.1 == k then (k, v) else p)).find? (fun q => q.1 == k')
      = m.find? (fun q => q.1 == k') := by
  induction m with
  | nil => rfl
  | cons q ps ih =>
    rw [List.map_cons]
    by_cases hq : q.1 = k
    · have h1 : (if (q.1 == k) = true then (k, v) else q) = (k, v) := by simp [hq]
      have e1 : ((k, v) :: ps.map (fun p => if p.1 == k then (k, v) else p)).find?
          (fun q => q.1 == k') = (ps.map (fun p => if p.1 == k then (k, v) else p)).find?
          (fun q => q.1 == k') := List.find?_cons_of_neg _ (by simp [Ne.symm h])
      have e2 : (q :: ps).find? (fun q => q.1 == k') = ps.find? (fun q => q.1 == k') :=
        List.find?_cons_of_neg _ (by simp [hq, Ne.symm h])
      rw [h1, e1, e2]
      exact ih
    · have h1 : (if (q.1 == k) = true then (k, v) else q) = q := by simp [hq]
      rw [h1]
      by_cases hq2 : q.1 = k'
      · have e1 : (q :: ps.map (fun p => if p.1 == k then (k, v) else p)).find?
            (fun q => q.1 == k') = some q := List.find?_cons_of_pos _ (by simpa using hq2)
        have e2 : (q :: ps).find? (fun q => q.1 == k') = some q :=
          List.find?_cons_of_pos _ (by simpa using hq2)
        rw [e1, e2]
      · have e1 : (q :: ps.map (fun p => if p.1 == k then (k, v) else p)).find?
            (fun q => q.1 == k') = (ps.map (fun p => if p.1 == k then (k, v) else p)).find?
            (fun q => q.1 == k') := List.find?_cons_of_neg _ (by simpa using hq2)
        have e2 : (q :: ps).find? (fun q => q.1 == k') = ps.find? (fun q => q.1 == k') :=
          List.find?_cons_of_neg _ (by simpa using hq2)
        rw [e1, e2]
        exact ih

theorem lookupKV_insertKV_self (m : ConfigMap) (k v : String) :
    lookupKV (insertKV m k v) k = some v := by
  by_cases h : k ∈ m.map Prod.fst
  · rw [insertKV_of_mem h]
    unfold lookupKV
    rw [find?_map_update_self m k v h]
    rfl
  · rw [insertKV_of_not_mem h]
    unfold lookupKV
    rw [List.find?_append]
    have hnone : m.find? (fun p => p.1 == k) = none := by
      rw [List.find?_eq_none]
      intro p hp hc
      exact h (List.mem_map.mpr ⟨p, hp, by simpa using hc⟩)
    simp [hnone]

theorem lookupKV_insertKV_ne (m : ConfigMap) (k v k' : String) (h : k' ≠ k) :
    lookupKV (insertKV m k v) k' = lookupKV m k' := by
  by_cases hm : k ∈ m.map Prod.fst
  · rw [insertKV_of_mem hm]
    unfold lookupKV
    rw [find?_map_update_ne m k v k' h]
  · rw [insertKV_of_not_mem hm]
    unfold lookupKV
    rw [List.find?_append]
    have : List.find? (fun p => p.1 == k') [(k, v)] = none := by
      simp [Ne.symm h]
    rw [this]
    cases m.find? fun p => p.1 == k' <;> rfl

theorem lookupKV_mem {m : ConfigMap} {k v : String} (h : lookupKV m k = some v) :
    (k, v) ∈ m := by
  unfold lookupKV at h
  rcases Option.map_eq_some'.mp h with ⟨p, hp, hv⟩
  have h1 : p.1 = k := by simpa using List.find?_some hp
  have h2 : p ∈ m := List.mem_of_find?_eq_some hp
  have : p = (k, v) := by
    cases p
    simp_all
  rwa [this] at h2

theorem lookupKV_isSome_of_mem {m : ConfigMap} {k : String}
    (h : k ∈ m.map Prod.fst) : (lookupKV m k).isSome := by
  unfold lookupKV
  rcases List.mem_map.mp h with ⟨p, hp, he⟩
  rw [Option.isSome_map']
  exact List.find?_isSome.mpr ⟨p, hp, by simpa using he⟩

theorem lookupKV_eq_none_of_not_mem {m : ConfigMap} {k : String}
    (h : k ∉ m.map Prod.fst) : lookupKV m k = none := by
  unfold lookupKV
  have : m.find? (fun p => p.1 == k) = none := by
    rw [List.find?_eq_none]
    intro p hp hc
    exact h (List.mem_map.mpr ⟨p, hp, by simpa using hc⟩)
  rw [this]; rfl

theorem lookupKV_eq_of_mem_nodup {m : ConfigMap}
    (hnd : (m.map Prod.fst).Nodup) {p : String × String} (hp : p ∈ m) :
    lookupKV m p.1 = some p.2 := by
  induction m with
  | nil => simp at hp
  | cons q ps ih =>
    rcases List.mem_cons.mp hp with rfl | hp
    · unfold lookupKV
      rw [List.find?_cons_of_pos _ (by simp)]
      rfl
    · have hq : ¬ q.1 = p.1 := by
        intro hc
        have : p.1 ∈ ps.map Prod.fst := List.mem_map.mpr ⟨p, hp, rfl⟩
        rw [List.map_cons] at hnd
        exact (List.nodup_cons.mp hnd).1 (hc ▸ this)
      unfold lookupKV
      rw [List.find?_cons_of_neg _ (by simpa using hq)]
      exact ih (by rw [List.map_cons] at hnd; exact (List.nodup_cons.mp hnd).2) hp

theorem lookupKV_perm {m₁ m₂ : ConfigMap} (hp : List.Perm m₁ m₂)
    (hnd : (m₁.map Prod.fst).Nodup) (k : String) :
    lookupKV m₁ k = lookupKV m₂ k := by
  have hnd₂ : (m₂.map Prod.fst).Nodup := ((hp.map Prod.fst).nodup_iff).mp hnd
  by_cases hm : k ∈ m₁.map Prod.fst
  · have h1 : (lookupKV m₁ k).isSome := lookupKV_isSome_of_mem hm
    rcases Option.isSome_iff_exists.mp h1 with ⟨v, hv⟩
    have : (k, v) ∈ m₂ := hp.mem_iff.mp (lookupKV_mem hv)
    rw [hv, lookupKV_eq_of_mem_nodup hnd₂ this]
  · have hm₂ : k ∉ m₂.map Prod.fst := fun hc => hm ((hp.map Prod.fst).mem_iff.mpr hc)
    rw [lookupKV_eq_none_of_not_mem hm, lookupKV_eq_none_of_not_mem hm₂]

theorem foldl_insertKV_fresh {l acc : ConfigMap}
    (hnd : (l.map Prod.fst).Nodup)
    (hdisj : ∀ k ∈ l.map Prod.fst, k ∉ acc.map Prod.fst) :
    l.foldl (fun a p => insertKV a p.1 p.2) acc = acc ++ l := by
  induction l generalizing acc with
  | nil => simp
  | cons p ps ih =>
    rw [List.map_cons, List.nodup_cons] at hnd
    have hstep : insertKV acc p.1 p.2 = acc ++ [p] := by
      rw [insertKV_of_not_mem (hdisj p.1 (by simp))]
    have hdisj2 : ∀ k ∈ ps.map Prod.fst, k ∉ (acc ++ [p]).map Prod.fst := by
      intro k hk hc
      rw [List.map_append] at hc
      rcases List.mem_append.mp hc with hc | hc
      · exact hdisj k (by simp [hk]) hc
      · have hkp : k = p.1 := by simpa using hc
        exact hnd.1 (hkp ▸ hk)
    rw [List.foldl_cons, hstep, ih hnd.2 hdisj2, List.append_assoc,
      List.singleton_append]

/-! ## Trim and line lemmas -/

theorem dropWhile_ws_idem (l : List Char) :
    (l.dropWhile Char.isWhitespace).dropWhile Char.isWhitespace
      = l.dropWhile Char.isWhitespace := by
  induction l with
  | nil => rfl
  | cons c cs ih =>
    by_cases h : Char.isWhitespace c
    · rw [List.dropWhile_cons_of_pos h]
      exact ih
    · rw [List.dropWhile_cons_of_neg h, List.dropWhile_cons_of_neg h]

theorem head_not_ws_of_front_stable {c : Char} {l : List Char}
    (h : (c :: l).dropWhile Char.isWhitespace = c :: l) :
    Char.isWhitespace c = false := by
  by_cases hw : Char.isWhitespace c
  · rw [List.dropWhile_cons_of_pos hw] at h
    have h2 : (l.dropWhile Char.isWhitespace).length ≤ l.length :=
      (List.dropWhile_sublist Char.isWhitespace).length_le
    rw [h] at h2
    simp at h2
  · simpa using hw

theorem front_stable_of_trim_eq {l : List Char} (h : lineTrim l = l) :
    l.dropWhile Char.isWhitespace = l := by
  have h1 : (l.dropWhile Char.isWhitespace).length ≤ l.length :=
    (List.dropWhile_sublist Char.isWhitespace).length_le
  have h2 : ((l.dropWhile Char.isWhitespace).reverse.dropWhile Char.isWhitespace).length
      ≤ (l.dropWhile Char.isWhitespace).reverse.length :=
    (List.dropWhile_sublist Char.isWhitespace).length_le
  rw [List.length_reverse] at h2
  have h3 : (lineTrim l).length
      = ((l.dropWhile Char.isWhitespace).reverse.dropWhile Char.isWhitespace).length := by
    simp [lineTrim]
  rw [h] at h3
  exact (List.dropWhile_sublist Char.isWhitespace).eq_of_length (by omega)

theorem back_stable_of_trim_eq {l : List Char} (h : lineTrim l = l) :
    l.reverse.dropWhile Char.isWhitespace = l.reverse := by
  have hf : l.dropWhile Char.isWhitespace = l := front_stable_of_trim_eq h
  unfold lineTrim at h
  rw [hf] at h
  have h2 := congrArg List.reverse h
  simpa using h2

theorem lineTrim_of_stable {l : List Char}
    (hf : l.dropWhile Char.isWhitespace = l)
    (hb : l.reverse.dropWhile Char.isWhitespace = l.reverse) :
    lineTrim l = l := by
  unfold lineTrim
  rw [hf, hb, List.reverse_reverse]

theorem exists_append_of_front_stable {l : List Char}
    (hf : l.dropWhile Char.isWhitespace = l) :
    ∃ t, l = lineTrim l ++ t := by
  have hs : l.reverse.dropWhile Char.isWhitespace <:+ l.reverse :=
    List.dropWhile_suffix Char.isWhitespace
  rcases hs with ⟨t, ht⟩
  refine ⟨t.reverse, ?_⟩
  have h2 := congrArg List.reverse ht
  rw [List.reverse_append, List.reverse_reverse] at h2
  unfold lineTrim
  rw [hf]
  exact h2.symm

theorem lineTrim_idem_of_front_stable {w : List Char}
    (hfw : w.dropWhile Char.isWhitespace = w) :
    lineTrim (lineTrim w) = lineTrim w := by
  have hyw : (lineTrim w).reverse = w.reverse.dropWhile Char.isWhitespace := by
    unfold lineTrim
    rw [hfw, List.reverse_reverse]
  rcases exists_append_of_front_stable hfw with ⟨t, ht⟩
  have hfy : (lineTrim w).dropWhile Char.isWhitespace = lineTrim w := by
    cases hcase : lineTrim w with
    | nil => rfl
    | cons c y2 =>
      have hw2 : w = c :: (y2 ++ t) := by
        rw [ht, hcase]
        simp
      have hc : Char.isWhitespace c = false := by
        apply head_not_ws_of_front_stable
        rw [← hw2]
        exact hfw
      rw [List.dropWhile_cons_of_neg (by simp [hc])]
  have hby : (lineTrim w).reverse.dropWhile Char.isWhitespace = (lineTrim w).reverse := by
    rw [hyw]
    exact dropWhile_ws_idem _
  exact lineTrim_of_stable hfy hby

theorem lineTrim_idem (l : List Char) : lineTrim (lineTrim l) = lineTrim l := by
  have h1 : lineTrim l = lineTrim (l.dropWhile Char.isWhitespace) := by
    unfold lineTrim
    rw [dropWhile_ws_idem]
  rw [h1]
  exact lineTrim_idem_of_front_stable (dropWhile_ws_idem l)

theorem mem_of_mem_lineTrim {a : Char} {l : List Char} (h : a ∈ lineTrim l) :
    a ∈ l := by
  unfold lineTrim at h
  rw [List.mem_reverse] at h
  have h2 : a ∈ (l.dropWhile Char.isWhitespace).reverse :=
    (List.dropWhile_sublist Char.isWhitespace).subset h
  rw [List.mem_reverse] at h2
  exact (List.dropWhile_sublist Char.isWhitespace).subset h2

theorem splitLines_no_newline (s : List Char) : ∀ l ∈ splitLines s, '\n' ∉ l := by
  induction s with
  | nil =>
    intro l hl
    have : l = [] := by simpa [splitLines] using hl
    simp [this]
  | cons c cs ih =>
    intro l hl
    by_cases hc : c = '\n'
    · simp only [splitLines, if_pos hc] at hl
      rcases List.mem_cons.mp hl with rfl | hl
      · simp
      · exact ih l hl
    · simp only [splitLines, if_neg hc] at hl
      split at hl
      · rename_i heq
        have : l = [c] := by simpa using hl
        simp only [this, List.mem_singleton]
        exact Ne.symm hc
      · rename_i l0 ls heq
        rcases List.mem_cons.mp hl with rfl | hl
        · intro hm
          rcases List.mem_cons.mp hm with h1 | h1
          · exact hc h1.symm
          · exact ih l0 (heq ▸ List.mem_cons_self l0 ls) h1
        · exact ih l (heq ▸ List.mem_cons_of_mem l0 hl)

theorem splitLines_append {l rest : List Char} (h : '\n' ∉ l) :
    splitLines (l ++ '\n' :: rest) = l :: splitLines rest := by
  induction l with
  | nil => simp [splitLines]
  | cons c cs ih =>
    have hc : c ≠ '\n' := fun hcc => h (by simp [hcc])
    have hcs : '\n' ∉ cs := fun hm => h (by simp [hm])
    rw [List.cons_append]
    simp only [splitLines, if_neg hc]
    rw [ih hcs]

theorem splitLines_joinLines {L : List (List Char)} (h : ∀ l ∈ L, '\n' ∉ l) :
    splitLines (joinLines L) = L ++ [[]] := by
  induction L with
  | nil => rfl
  | cons l ls ih =>
    have h1 : '\n' ∉ l := h l (by simp)
    have h2 : ∀ x ∈ ls, '\n' ∉ x := fun x hx => h x (by simp [hx])
    show splitLines (l ++ '\n' :: joinLines ls) = (l :: ls) ++ [[]]
    rw [splitLines_append h1, ih h2]
    rfl

theorem takeWhile_key {k v : List Char} (hk : '=' ∉ k) :
    (k ++ '=' :: v).takeWhile (fun c => c != '=') = k := by
  rw [List.takeWhile_append_of_pos]
  · have : ('=' :: v).takeWhile (fun c => c != '=') = [] := by simp
    rw [this, List.append_nil]
  · intro a ha
    simp only [bne_iff_ne, ne_eq]
    intro hc
    exact hk (hc ▸ ha)

theorem dropWhile_val {k v : List Char} (hk : '=' ∉ k) :
    (k ++ '=' :: v).dropWhile (fun c => c != '=') = '=' :: v := by
  rw [List.dropWhile_append_of_pos]
  · simp
  · intro a ha
    simp only [bne_iff_ne, ne_eq]
    intro hc
    exact hk (hc ▸ ha)

theorem lineTrim_keyval {k v : List Char}
    (hkf : k.dropWhile Char.isWhitespace = k)
    (hvb : v.reverse.dropWhile Char.isWhitespace = v.reverse) :
    lineTrim (k ++ '=' :: v) = k ++ '=' :: v := by
  apply lineTrim_of_stable
  · cases k with
    | nil =>
      rw [List.nil_append]
      rw [List.dropWhile_cons_of_neg (by decide)]
    | cons c k2 =>
      have hc : Char.isWhitespace c = false := head_not_ws_of_front_stable hkf
      rw [List.cons_append, List.dropWhile_cons_of_neg (by simp [hc])]
  · rw [List.reverse_append, List.reverse_cons]
    cases hv : v.reverse with
    | nil =>
      rw [List.nil_append, List.singleton_append]
      rw [List.dropWhile_cons_of_neg (by decide)]
    | cons d v2 =>
      have hd : Char.isWhitespace d = false :=
        head_not_ws_of_front_stable (hv ▸ hvb)
      rw [List.cons_append, List.cons_append]
      rw [List.dropWhile_cons_of_neg (by simp [hd])]

/-! ## Parsing a serialized file -/

theorem parseLine_entry (acc : ConfigMap) (k v : String)
    (hk : rtKey k = true) (hv : rtVal v = true) :
    parseLine acc (k.data ++ '=' :: v.data) = insertKV acc k v := by
  have hk2 := hk
  have hv2 := hv
  unfold rtKey at hk2
  unfold rtVal at hv2
  simp only [Bool.and_eq_true, beq_iff_eq, Bool.not_eq_true', List.elem_eq_mem,
    decide_eq_false_iff_not, bne_iff_ne, ne_eq] at hk2 hv2
  obtain ⟨⟨⟨⟨hkt, hke⟩, hkn⟩, hkh⟩, hk2t⟩ := hk2
  obtain ⟨hvt, hvn⟩ := hv2
  have hline : lineTrim (k.data ++ '=' :: v.data) = k.data ++ '=' :: v.data :=
    lineTrim_keyval (front_stable_of_trim_eq hkt) (back_stable_of_trim_eq hvt)
  have c1 : ¬ ((k.data ++ '=' :: v.data).isEmpty = true) := by
    cases k.data <;> simp
  have c2 : ¬ ((k.data ++ '=' :: v.data).head? = some '#') := by
    cases hk0 : k.data with
    | nil => simp
    | cons c ks =>
      have hc : c ≠ '#' := by
        rw [hk0] at hkh
        simpa using hkh
      simp [hc]
  have c3 : ¬ ((k.data ++ '=' :: v.data).take 2 = ['/', '/']) := by
    cases hk0 : k.data with
    | nil => simp
    | cons c ks =>
      cases ks with
      | nil => simp
      | cons c2 ks2 =>
        rw [hk0] at hk2t
        simpa using hk2t
  have c4 : (k.data ++ '=' :: v.data).contains '=' = true := by simp
  unfold parseLine
  rw [hline, if_neg c1, if_neg c2, if_neg c3, if_pos c4,
    takeWhile_key hke, dropWhile_val hke, List.tail_cons, hkt, hvt]

theorem foldl_parseLine_headerLines (acc : ConfigMap) :
    headerLines.foldl parseLine acc = acc := rfl

theorem mem_pair_of_mem_keys {m : ConfigMap} {k : String}
    (hk : k ∈ m.map Prod.fst) : (k, lookupD m k) ∈ m := by
  have h1 : (lookupKV m k).isSome := lookupKV_isSome_of_mem hk
  rcases Option.isSome_iff_exists.mp h1 with ⟨v, hv⟩
  have h2 : lookupD m k = v := by simp [lookupD, hv]
  rw [h2]
  exact lookupKV_mem hv

theorem foldl_insert_lookup_fresh (m : ConfigMap) :
    ∀ (ks : List String) (acc : ConfigMap), ks.Nodup →
      (∀ k ∈ ks, k ∉ acc.map Prod.fst) →
      ks.foldl (fun a k => insertKV a k (lookupD m k)) acc
        = acc ++ ks.map (fun k => (k, lookupD m k))
  | [], acc, _, _ => by simp
  | k :: ks, acc, hnd, hdisj => by
    rw [List.nodup_cons] at hnd
    have hstep : insertKV acc k (lookupD m k) = acc ++ [(k, lookupD m k)] :=
      insertKV_of_not_mem (hdisj k (by simp))
    have hdisj2 : ∀ x ∈ ks, x ∉ (acc ++ [(k, lookupD m k)]).map Prod.fst := by
      intro x hx hc
      rw [List.map_append] at hc
      rcases List.mem_append.mp hc with hc | hc
      · exact hdisj x (by simp [hx]) hc
      · have : x = k := by simpa using hc
        exact hnd.1 (this ▸ hx)
    rw [List.foldl_cons, hstep,
      foldl_insert_lookup_fresh m ks (acc ++ [(k, lookupD m k)]) hnd.2 hdisj2,
      List.append_assoc, List.singleton_append, List.map_cons]

theorem parse_serialize {m : ConfigMap} (hnd : (m.map Prod.fst).Nodup)
    (hg : ∀ p ∈ m, rtKey p.1 = true ∧ rtVal p.2 = true) :
    parseConfig (serializeConfig m)
      = (sortKeys m).map (fun k => (k, lookupD m k)) := by
  have hpair : ∀ k ∈ sortKeys m, (k, lookupD m k) ∈ m := by
    intro k hk
    exact mem_pair_of_mem_keys ((sortStrings_perm (m.map Prod.fst)).mem_iff.mp hk)
  have hkeysnodup : (sortKeys m).Nodup :=
    ((sortStrings_perm (m.map Prod.fst)).nodup_iff).mpr hnd
  have hnl : ∀ l ∈ headerLines ++ (sortKeys m).map (renderLine m), '\n' ∉ l := by
    intro l hl
    rcases List.mem_append.mp hl with hl | hl
    · simp only [headerLines, List.mem_cons, List.mem_singleton,
        List.not_mem_nil, or_false] at hl
      rcases hl with rfl | rfl | rfl | rfl | rfl | rfl <;> decide
    · rcases List.mem_map.mp hl with ⟨k, hk, rfl⟩
      have hp := hg _ (hpair k hk)
      have hk2 := hp.1
      have hv2 := hp.2
      unfold rtKey at hk2
      unfold rtVal at hv2
      simp only [Bool.and_eq_true, beq_iff_eq, Bool.not_eq_true', List.elem_eq_mem,
        decide_eq_false_iff_not, bne_iff_ne, ne_eq] at hk2 hv2
      intro hmem
      unfold renderLine at hmem
      rcases List.mem_append.mp hmem with hmem | hmem
      · exact hk2.1.1.2 hmem
      · rcases List.mem_cons.mp hmem with h1 | h1
        · exact (by decide : ('\n' : Char) ≠ '=') h1
        · exact hv2.2 h1
  calc parseConfig (serializeConfig m)
      = List.foldl parseLine []
          ((headerLines ++ (sortKeys m).map (renderLine m)) ++ [[]]) := by
        unfold parseConfig serializeConfig configLines
        rw [splitLines_joinLines hnl]
    _ = List.foldl parseLine
          (List.foldl parseLine (List.foldl parseLine [] headerLines)
            ((sortKeys m).map (renderLine m))) [[]] := by
        rw [List.foldl_append, List.foldl_append]
    _ = List.foldl parseLine
          (List.foldl parseLine [] ((sortKeys m).map (renderLine m))) [[]] := by
        rw [foldl_parseLine_headerLines]
    _ = List.foldl parseLine [] ((sortKeys m).map (renderLine m)) := rfl
    _ = List.foldl (fun a k => parseLine a (renderLine m k)) [] (sortKeys m) := by
        rw [List.foldl_map]
    _ = List.foldl (fun a k => insertKV a k (lookupD m k)) [] (sortKeys m) := by
        apply List.foldl_ext
        intro a k hk
        have hp := hg _ (hpair k hk)
        unfold renderLine
        exact parseLine_entry a k (lookupD m k) hp.1 hp.2
    _ = (sortKeys m).map (fun k => (k, lookupD m k)) := by
        have h2 := foldl_insert_lookup_fresh m (sortKeys m) [] hkeysnodup (by simp)
        simpa using h2

theorem mapEquiv_parse_serialize {m : ConfigMap} (hnd : (m.map Prod.fst).Nodup)
    (hg : ∀ p ∈ m, rtKey p.1 = true ∧ rtVal p.2 = true) :
    mapEquiv (parseConfig (serializeConfig m)) m = true := by
  have hkeysnodup : (sortKeys m).Nodup :=
    ((sortStrings_perm (m.map Prod.fst)).nodup_iff).mpr hnd
  rw [parse_serialize hnd hg]
  unfold mapEquiv
  rw [Bool.and_eq_true]
  constructor
  · rw [List.all_eq_true]
    intro p hp
    rcases List.mem_map.mp hp with ⟨k, hk, rfl⟩
    have hkm : k ∈ m.map Prod.fst := (sortStrings_perm (m.map Prod.fst)).mem_iff.mp hk
    have h2 : (lookupKV m k).isSome := lookupKV_isSome_of_mem hkm
    rcases Option.isSome_iff_exists.mp h2 with ⟨v, hv⟩
    simp [hv, lookupD]
  · rw [List.all_eq_true]
    intro p hp
    have hkm : p.1 ∈ m.map Prod.fst := List.mem_map.mpr ⟨p, hp, rfl⟩
    have hks : p.1 ∈ sortKeys m := (sortStrings_perm (m.map Prod.fst)).mem_iff.mpr hkm
    have hpair2 : (p.1, lookupD m p.1) ∈ (sortKeys m).map (fun k => (k, lookupD m k)) :=
      List.mem_map.mpr ⟨p.1, hks, rfl⟩
    have hnd2 : (((sortKeys m).map (fun k => (k, lookupD m k))).map Prod.fst).Nodup := by
      rw [List.map_map, show (Prod.fst ∘ fun k => (k, lookupD m k)) = id from rfl,
        List.map_id]
      exact hkeysnodup
    have hl2 := lookupKV_eq_of_mem_nodup hnd2 hpair2
    have hval : lookupD m p.1 = p.2 := by
      have h3 := lookupKV_eq_of_mem_nodup hnd hp
      simp [lookupD, h3]
    rw [hval] at hl2
    simp only [hl2]
    simp

/-! ## Entries produced by parsing are round-trippable -/

theorem mem_insertKV_cases {m : ConfigMap} {k v : String} {p : String × String}
    (h : p ∈ insertKV m k v) : p = (k, v) ∨ p ∈ m := by
  by_cases hm : k ∈ m.map Prod.fst
  · rw [insertKV_of_mem hm] at h
    rcases List.mem_map.mp h with ⟨q, hq, rfl⟩
    by_cases hqk : q.1 = k
    · left
      simp [hqk]
    · right
      simpa [hqk] using hq
  · rw [insertKV_of_not_mem hm] at h
    rcases List.mem_append.mp h with h | h
    · right
      exact h
    · left
      simpa using h

theorem trimmed_takeWhile_decomp (raw : List Char) :
    lineTrim ((lineTrim raw).takeWhile (fun c => c != '=')) = []
    ∨ ∃ rest, lineTrim raw
        = lineTrim ((lineTrim raw).takeWhile (fun c => c != '=')) ++ rest := by
  by_cases hnil : lineTrim ((lineTrim raw).takeWhile (fun c => c != '=')) = []
  · left
    exact hnil
  · right
    have front : (lineTrim raw).dropWhile Char.isWhitespace = lineTrim raw :=
      front_stable_of_trim_eq (lineTrim_idem raw)
    have hkcne : (lineTrim raw).takeWhile (fun c => c != '=') ≠ [] := by
      intro hc
      apply hnil
      rw [hc]
      rfl
    have hkcf : ((lineTrim raw).takeWhile (fun c => c != '=')).dropWhile Char.isWhitespace
        = (lineTrim raw).takeWhile (fun c => c != '=') := by
      cases hl : lineTrim raw with
      | nil =>
        exfalso
        apply hkcne
        rw [hl]
        rfl
      | cons c0 l2 =>
        have hc0 : Char.isWhitespace c0 = false := head_not_ws_of_front_stable (hl ▸ front)
        rw [List.takeWhile_cons]
        by_cases hp : (c0 != '=') = true
        · rw [if_pos hp, List.dropWhile_cons_of_neg (by simp [hc0])]
        · exfalso
          apply hkcne
          rw [hl, List.takeWhile_cons, if_neg hp]
    rcases exists_append_of_front_stable hkcf with ⟨t, ht⟩
    refine ⟨t ++ (lineTrim raw).dropWhile (fun c => c != '='), ?_⟩
    have hsplit : (lineTrim raw).takeWhile (fun c => c != '=')
        ++ (lineTrim raw).dropWhile (fun c => c != '=') = lineTrim raw :=
      List.takeWhile_append_dropWhile _ _
    calc lineTrim raw
        = (lineTrim raw).takeWhile (fun c => c != '=')
          ++ (lineTrim raw).dropWhile (fun c => c != '=') := hsplit.symm
      _ = (lineTrim ((lineTrim raw).takeWhile (fun c => c != '=')) ++ t)
          ++ (lineTrim raw).dropWhile (fun c => c != '=') := by rw [← ht]
      _ = lineTrim ((lineTrim raw).takeWhile (fun c => c != '='))
          ++ (t ++ (lineTrim raw).dropWhile (fun c => c != '=')) := by
          rw [List.append_assoc]

theorem inserted_key_rt {raw : List Char} (hraw : '\n' ∉ raw)
    (hnh : ¬ (lineTrim raw).head? = some '#')
    (hn2 : ¬ (lineTrim raw).take 2 = ['/', '/']) :
    rtKey (String.mk (lineTrim ((lineTrim raw).takeWhile (fun c => c != '=')))) = true := by
  simp only [rtKey, Bool.and_eq_true, beq_iff_eq, Bool.not_eq_true', List.elem_eq_mem,
    decide_eq_false_iff_not, bne_iff_ne, ne_eq]
  refine ⟨⟨⟨⟨?_, ?_⟩, ?_⟩, ?_⟩, ?_⟩
  · exact lineTrim_idem _
  · intro hmem
    have h1 := mem_of_mem_lineTrim hmem
    have h2 := List.mem_takeWhile_imp h1
    simp at h2
  · intro hmem
    have h1 := mem_of_mem_lineTrim hmem
    have h2 : '\n' ∈ lineTrim raw :=
      (List.takeWhile_sublist (fun c => c != '=')).subset h1
    exact hraw (mem_of_mem_lineTrim h2)
  · rcases trimmed_takeWhile_decomp raw with hdec | ⟨rest, hdec⟩
    · rw [hdec]
      simp
    · cases hkey : lineTrim ((lineTrim raw).takeWhile (fun c => c != '=')) with
      | nil => simp
      | cons c k2 =>
        rw [hkey] at hdec
        intro hc
        simp only [List.head?_cons, Option.some.injEq] at hc
        apply hnh
        rw [hdec, List.cons_append, List.head?_cons, hc]
  · rcases trimmed_takeWhile_decomp raw with hdec | ⟨rest, hdec⟩
    · rw [hdec]
      simp
    · cases hkey : lineTrim ((lineTrim raw).takeWhile (fun c => c != '=')) with
      | nil => simp
      | cons c k2 =>
        cases k2 with
        | nil => simp
        | cons c2 k3 =>
          rw [hkey] at hdec
          intro hc
          apply hn2
          rw [hdec]
          simp only [List.cons_append, List.take_succ_cons, List.take_zero] at hc ⊢
          simp only [List.cons.injEq] at hc
          rw [hc.1, hc.2.1]

theorem inserted_val_rt {raw : List Char} (hraw : '\n' ∉ raw) :
    rtVal (String.mk (lineTrim (((lineTrim raw).dropWhile (fun c => c != '=')).tail)))
      = true := by
  simp only [rtVal, Bool.and_eq_true, beq_iff_eq, Bool.not_eq_true', List.elem_eq_mem,
    decide_eq_false_iff_not]
  constructor
  · exact lineTrim_idem _
  · intro hmem
    have h1 := mem_of_mem_lineTrim hmem
    have h2 : '\n' ∈ (lineTrim raw).dropWhile (fun c => c != '=') :=
      (List.tail_sublist _).subset h1
    have h3 : '\n' ∈ lineTrim raw :=
      (List.dropWhile_sublist (fun c => c != '=')).subset h2
    exact hraw (mem_of_mem_lineTrim h3)

theorem parseLine_rt {acc : ConfigMap} {raw : List Char} (hraw : '\n' ∉ raw)
    (hacc : ∀ p ∈ acc, rtKey p.1 = true ∧ rtVal p.2 = true) :
    ∀ p ∈ parseLine acc raw, rtKey p.1 = true ∧ rtVal p.2 = true := by
  intro p hp
  unfold parseLine at hp
  split at hp
  · exact hacc p hp
  · split at hp
    · exact hacc p hp
    · split at hp
      · exact hacc p hp
      · split at hp
        · rcases mem_insertKV_cases hp with rfl | hp2
          · rename_i hne hnh hn2 hcont
            exact ⟨inserted_key_rt hraw hnh hn2, inserted_val_rt hraw⟩
          · exact hacc _ hp2
        · exact hacc p hp

theorem parseConfig_rt (content : List Char) :
    ∀ p ∈ parseConfig content, rtKey p.1 = true ∧ rtVal p.2 = true := by
  have hmain : ∀ (ls : List (List Char)) (acc : ConfigMap),
      (∀ l ∈ ls, '\n' ∉ l) →
      (∀ p ∈ acc, rtKey p.1 = true ∧ rtVal p.2 = true) →
      ∀ p ∈ ls.foldl parseLine acc, rtKey p.1 = true ∧ rtVal p.2 = true := by
    intro ls
    induction ls with
    | nil =>
      intro acc _ hacc
      simpa using hacc
    | cons l ls2 ih =>
      intro acc hnl hacc
      rw [List.foldl_cons]
      exact ih _ (fun x hx => hnl x (by simp [hx]))
        (parseLine_rt (hnl l (by simp)) hacc)
  exact hmain _ [] (splitLines_no_newline content) (by simp)

theorem parseLine_nodup {acc : ConfigMap} {raw : List Char}
    (h : (acc.map Prod.fst).Nodup) : ((parseLine acc raw).map Prod.fst).Nodup := by
  unfold parseLine
  split
  · exact h
  · split
    · exact h
    · split
      · exact h
      · split
        · exact nodup_keys_insertKV h
        · exact h

theorem parseConfig_nodup (content : List Char) :
    ((parseConfig content).map Prod.fst).Nodup := by
  have hmain : ∀ (ls : List (List Char)) (acc : ConfigMap),
      (acc.map Prod.fst).Nodup → ((ls.foldl parseLine acc).map Prod.fst).Nodup := by
    intro ls
    induction ls with
    | nil =>
      intro acc hacc
      simpa using hacc
    | cons l ls2 ih =>
      intro acc hacc
      rw [List.foldl_cons]
      exact ih _ (parseLine_nodup hacc)
  exact hmain _ [] (by simp)

theorem rtKey_of_goodKey {k : String} (h : goodKey k = true) : rtKey k = true := by
  unfold goodKey at h
  rw [Bool.and_eq_true, Bool.and_eq_true] at h
  exact h.2

theorem rtVal_of_goodVal {v : String} (h : goodVal v = true) : rtVal v = true := by
  unfold goodVal at h
  rw [Bool.and_eq_true] at h
  exact h.2

theorem applyChanges_rt {m changes : ConfigMap}
    (hm : ∀ p ∈ m, rtKey p.1 = true ∧ rtVal p.2 = true)
    (hc : ∀ p ∈ changes, rtKey p.1 = true ∧ rtVal p.2 = true) :
    ∀ p ∈ applyChanges m changes, rtKey p.1 = true ∧ rtVal p.2 = true := by
  induction changes generalizing m with
  | nil => simpa [applyChanges] using hm
  | cons q qs ih =>
    intro p hp
    unfold applyChanges at hp
    rw [List.foldl_cons] at hp
    refine ih (m := insertKV m q.1 q.2) ?_ (fun x hx => hc x (by simp [hx])) p hp
    intro x hx
    rcases mem_insertKV_cases hx with rfl | hx2
    · exact hc q (by simp)
    · exact hm x hx2

theorem applyChanges_nodup {m changes : ConfigMap}
    (hm : (m.map Prod.fst).Nodup) :
    ((applyChanges m changes).map Prod.fst).Nodup := by
  induction changes generalizing m with
  | nil => simpa [applyChanges] using hm
  | cons q qs ih =>
    unfold applyChanges
    rw [List.foldl_cons]
    exact ih (nodup_keys_insertKV hm)

/-! ## State lemmas for the session operations -/

theorem add_status_fs (kc : KC) (msg : String) : (add_status kc msg).fs = kc.fs := rfl

theorem add_status_procs (kc : KC) (msg : String) :
    (add_status kc msg).procs = kc.procs := rfl

theorem validate_fst (kc : KC) :
    (validate_kernel_source kc).1 = validOK kc.fs := by
  unfold validate_kernel_source validOK
  cases h1 : kc.fs.dirExists <;>
    cases h2 : (["Kconfig", "Makefile", "init"].any fun f => kc.fs.entries.contains f) <;>
    simp [h1, h2]

theorem validate_snd_fs (kc : KC) : (validate_kernel_source kc).2.fs = kc.fs := by
  unfold validate_kernel_source
  split
  · rfl
  · split
    · rfl
    · rfl

theorem validate_snd_procs (kc : KC) :
    (validate_kernel_source kc).2.procs = kc.procs := by
  unfold validate_kernel_source
  split
  · rfl
  · split
    · rfl
    · rfl

theorem ensure_spec (kc : KC) (w : World) :
    (ensure_config_exists kc w).1 = ensureOK kc.fs w
    ∧ (ensure_config_exists kc w).2.fs.config = configAfterEnsure kc.fs w
    ∧ (ensure_config_exists kc w).2.fs.backup = kc.fs.backup
    ∧ (ensure_config_exists kc w).2.fs.dirExists = kc.fs.dirExists
    ∧ (ensure_config_exists kc w).2.fs.entries = kc.fs.entries := by
  unfold ensure_config_exists ensureOK configAfterEnsure
  by_cases h : kc.fs.config.isSome
  · simp [h, add_status]
  · simp only [h, if_false, Bool.false_eq_true]
    cases w.defconfig with
    | exits code stderr =>
      by_cases hc : code = 0 <;> cases hw : w.defconfigWrites <;>
        simp [h, hc, hw, procWrite, setConfig, add_status]
    | timedOut =>
      cases hw : w.defconfigWrites <;>
        simp [h, hw, procWrite, setConfig, add_status]
    | raises e => simp [h, add_status]

theorem backup_spec (kc : KC) (w : World) :
    (backup_config kc w).2.fs.config = kc.fs.config
    ∧ (backup_config kc w).2.fs.dirExists = kc.fs.dirExists
    ∧ (backup_config kc w).2.fs.entries = kc.fs.entries
    ∧ (backup_config kc w).1 = (kc.fs.config.isSome && w.backupCopyExc.isNone) := by
  unfold backup_config
  cases hc : kc.fs.config with
  | none => simp [hc]
  | some c =>
    cases he : w.backupCopyExc with
    | some e => simp [hc, add_status]
    | none => simp [hc, add_status]

theorem backup_snd_backup (kc : KC) (w : World) {c : List Char}
    (hc : kc.fs.config = some c) (he : w.backupCopyExc = none) :
    (backup_config kc w).2.fs.backup = some c := by
  unfold backup_config
  rw [hc, he]
  rfl

theorem read_spec (kc : KC) (w : World) : (read_config kc w).2.fs = kc.fs := by
  unfold read_config
  cases kc.fs.config with
  | none => rfl
  | some s =>
    cases w.readExc with
    | some e => rfl
    | none => rfl

theorem read_fst (kc : KC) (w : World) {s : List Char} (hs : kc.fs.config = some s)
    (hr : w.readExc = none) : (read_config kc w).1 = parseConfig s := by
  unfold read_config
  rw [hs, hr]

theorem write_spec (kc : KC) (w : World) (m : ConfigMap) :
    (write_config kc w m).1 = w.writeExc.isNone
    ∧ (write_config kc w m).2.fs.backup = kc.fs.backup
    ∧ (write_config kc w m).2.fs.dirExists = kc.fs.dirExists
    ∧ (write_config kc w m).2.fs.entries = kc.fs.entries
    ∧ (w.writeExc = none →
        (write_config kc w m).2.fs.config = some (serializeConfig m)) := by
  unfold write_config
  cases w.writeExc with
  | some e => simp [add_status]
  | none => simp [add_status, setConfig]

theorem foldl_applyChange_spec (changes : ConfigMap) :
    ∀ (p : ConfigMap × KC),
      (changes.foldl applyChange p).1 = applyChanges p.1 changes
      ∧ (changes.foldl applyChange p).2.fs = p.2.fs := by
  induction changes with
  | nil =>
    intro p
    exact ⟨rfl, rfl⟩
  | cons q qs ih =>
    intro p
    rw [List.foldl_cons]
    have h := ih (applyChange p q)
    exact ⟨h.1, h.2⟩

theorem modify_spec (kc : KC) (w : World) (changes : ConfigMap) :
    (modify_config kc w changes).1 = (kc.fs.config.isSome && w.writeExc.isNone)
    ∧ (modify_config kc w changes).2.fs.backup = kc.fs.backup
    ∧ (modify_config kc w changes).2.fs.dirExists = kc.fs.dirExists
    ∧ (modify_config kc w changes).2.fs.entries = kc.fs.entries := by
  unfold modify_config
  cases hc : kc.fs.config with
  | none => simp [add_status]
  | some s =>
    simp only [hc, Option.isNone_some, Bool.false_eq_true, if_false, Option.isSome_some,
      Bool.true_and]
    have hr := read_spec kc w
    have hf := foldl_applyChange_spec changes (read_config kc w)
    have hw := write_spec (changes.foldl applyChange (read_config kc w)).2 w
      (changes.foldl applyChange (read_config kc w)).1
    refine ⟨?_, ?_, ?_, ?_⟩
    · rw [hw.1]
    · rw [hw.2.1, hf.2, hr]
    · rw [hw.2.2.1, hf.2, hr]
    · rw [hw.2.2.2.1, hf.2, hr]

theorem olddef_spec (kc : KC) (w : World) :
    (run_olddefconfig kc w).1 = (olddefOK w, olddefMsg w)
    ∧ (run_olddefconfig kc w).2.fs.backup = kc.fs.backup
    ∧ (run_olddefconfig kc w).2.fs.dirExists = kc.fs.dirExists
    ∧ (run_olddefconfig kc w).2.fs.entries = kc.fs.entries := by
  unfold run_olddefconfig olddefOK olddefMsg
  cases w.olddefconfig with
  | exits code stderr =>
    by_cases hcode : code = 0 <;> cases hw : w.olddefconfigWrites <;>
      simp [hcode, hw, procWrite, setConfig, add_status]
  | timedOut =>
    cases hw : w.olddefconfigWrites <;>
      simp [hw, procWrite, setConfig, add_status]
  | raises e => simp [add_status]

theorem restore_spec (kc : KC) (w : World) :
    (restore_config kc w).2.fs.backup = kc.fs.backup
    ∧ (kc.fs.backup = none → (restore_config kc w).2.fs.config = kc.fs.config)
    ∧ (∀ c, kc.fs.backup = some c → w.restoreCopyExc = none →
        (restore_config kc w).2.fs.config = some c)
    ∧ (∀ c e, kc.fs.backup = some c → w.restoreCopyExc = some e →
        (restore_config kc w).2.fs.config = kc.fs.config) := by
  unfold restore_config
  cases hb : kc.fs.backup with
  | none => simp [hb]
  | some c =>
    cases he : w.restoreCopyExc with
    | some e => simp [hb, he, add_status]
    | none => simp [hb, he, add_status, setConfig]

theorem ensure_fst (kc : KC) (w : World) :
    (ensure_config_exists kc w).1 = ensureOK kc.fs w := (ensure_spec kc w).1

theorem ensure_config_eq (kc : KC) (w : World) :
    (ensure_config_exists kc w).2.fs.config = configAfterEnsure kc.fs w :=
  (ensure_spec kc w).2.1

theorem backup_config_eq (kc : KC) (w : World) :
    (backup_config kc w).2.fs.config = kc.fs.config := (backup_spec kc w).1

theorem modify_fst (kc : KC) (w : World) (changes : ConfigMap) :
    (modify_config kc w changes).1 = (kc.fs.config.isSome && w.writeExc.isNone) :=
  (modify_spec kc w changes).1

theorem olddef_fst (kc : KC) (w : World) :
    (run_olddefconfig kc w).1 = (olddefOK w, olddefMsg w) := (olddef_spec kc w).1

/-- The `(success, message)` result of the workflow is a pure function of the
initial filesystem and the world: neither the changes map, nor the backup
file, nor the restore oracle influence it. -/
theorem apply_fst (kc : KC) (w : World) (changes : ConfigMap) :
    (apply_config_changes kc w changes).1 = applyResult kc.fs w := by
  by_cases hval : validOK kc.fs = true
  · by_cases hens : ensureOK kc.fs w = true
    · by_cases hmod : ((configAfterEnsure kc.fs w).isSome && w.writeExc.isNone) = true
      · by_cases hod : olddefOK w = true
        · simp [apply_config_changes, applyResult, validate_fst, add_status_fs,
            ensure_fst, ensure_config_eq, validate_snd_fs, backup_config_eq,
            modify_fst, olddef_fst, modifyOK, hval, hens, hmod, hod]
        · rw [Bool.not_eq_true] at hod
          simp [apply_config_changes, applyResult, validate_fst, add_status_fs,
            ensure_fst, ensure_config_eq, validate_snd_fs, backup_config_eq,
            modify_fst, olddef_fst, modifyOK, hval, hens, hmod, hod]
      · rw [Bool.not_eq_true] at hmod
        simp [apply_config_changes, applyResult, validate_fst, add_status_fs,
          ensure_fst, ensure_config_eq, validate_snd_fs, backup_config_eq,
          modify_fst, olddef_fst, modifyOK, hval, hens, hmod]
    · rw [Bool.not_eq_true] at hens
      simp [apply_config_changes, applyResult, validate_fst, add_status_fs,
        ensure_fst, ensure_config_eq, validate_snd_fs, backup_config_eq,
        modify_fst, olddef_fst, modifyOK, hval, hens]
  · rw [Bool.not_eq_true] at hval
    simp [apply_config_changes, applyResult, validate_fst, add_status_fs,
      ensure_fst, ensure_config_eq, validate_snd_fs, backup_config_eq,
      modify_fst, olddef_fst, modifyOK, hval]

theorem ensure_backup (kc : KC) (w : World) :
    (ensure_config_exists kc w).2.fs.backup = kc.fs.backup := (ensure_spec kc w).2.2.1

theorem modify_backup (kc : KC) (w : World) (changes : ConfigMap) :
    (modify_config kc w changes).2.fs.backup = kc.fs.backup :=
  (modify_spec kc w changes).2.1

theorem olddef_backup (kc : KC) (w : World) :
    (run_olddefconfig kc w).2.fs.backup = kc.fs.backup := (olddef_spec kc w).2.1

theorem restore_config_eq (kc : KC) (w : World) (c : List Char)
    (hb : kc.fs.backup = some c) (he : w.restoreCopyExc = none) :
    (restore_config kc w).2.fs.config = some c :=
  (restore_spec kc w).2.2.1 c hb he

theorem modify_success_content (kc : KC) (w : World) (changes : ConfigMap)
    {s : List Char} (hs : kc.fs.config = some s) (hr : w.readExc = none)
    (hw : w.writeExc = none) :
    (modify_config kc w changes).1 = true
    ∧ (modify_config kc w changes).2.fs.config
        = some (serializeConfig (applyChanges (parseConfig s) changes)) := by
  have hrf : (read_config kc w).1 = parseConfig s := read_fst kc w hs hr
  have hf := foldl_applyChange_spec changes (read_config kc w)
  have hwspec := write_spec (changes.foldl applyChange (read_config kc w)).2 w
    (changes.foldl applyChange (read_config kc w)).1
  unfold modify_config
  simp only [hs, Option.isNone_some, Bool.false_eq_true, if_false]
  constructor
  · rw [hwspec.1, hw]
    rfl
  · rw [hwspec.2.2.2.2 hw, hf.1, hrf]

/-! ## Claim theorems -/

/-- C1 (amended): provided `.config` exists when the workflow starts (so the
backup captures it) and the backup/restore copies raise no I/O error, a
failed `apply_config_changes` call leaves `.config` with its pre-change
content. -/
theorem claim_C1_amended (kc : KC) (w : World) (changes : ConfigMap)
    {c : List Char} (h1 : kc.fs.config = some c) (h2 : w.backupCopyExc = none)
    (h3 : w.restoreCopyExc = none)
    (h4 : (apply_config_changes kc w changes).1.1 = false) :
    (apply_config_changes kc w changes).2.fs.config = some c := by
  have hens : ensureOK kc.fs w = true := by simp [ensureOK, h1]
  have hcae : configAfterEnsure kc.fs w = some c := by simp [configAfterEnsure, h1]
  simp only [apply_config_changes]
  generalize hkc1 : add_status kc
    ("Applying config changes for kernel " ++ kc.kernel_version) = kc1
  have hfs1 : kc1.fs = kc.fs := by
    rw [← hkc1, add_status_fs]
  generalize hv : validate_kernel_source kc1 = v
  have hvfs : v.2.fs = kc.fs := by rw [← hv, validate_snd_fs, hfs1]
  by_cases hval : validOK kc.fs = true
  · have hv1 : v.1 = true := by rw [← hv, validate_fst, hfs1, hval]
    rw [if_neg (show ¬((!v.1) = true) by rw [hv1]; simp)]
    generalize he : ensure_config_exists v.2 w = e
    have he1 : e.1 = true := by rw [← he, ensure_fst, hvfs, hens]
    have hecfg : e.2.fs.config = some c := by
      rw [← he, ensure_config_eq, hvfs, hcae]
    rw [if_neg (show ¬((!e.1) = true) by rw [he1]; simp)]
    generalize hb : backup_config e.2 w = b
    have hbb : b.2.fs.backup = some c := by
      rw [← hb]
      exact backup_snd_backup e.2 w hecfg h2
    have hbc : b.2.fs.config = some c := by rw [← hb, backup_config_eq, hecfg]
    generalize hm : modify_config b.2 w changes = mres
    have hmb : mres.2.fs.backup = some c := by rw [← hm, modify_backup, hbb]
    by_cases hm1 : mres.1 = true
    · rw [if_neg (show ¬((!mres.1) = true) by rw [hm1]; simp)]
      generalize ho : run_olddefconfig mres.2 w = o
      have hob : o.2.fs.backup = some c := by rw [← ho, olddef_backup, hmb]
      by_cases ho1 : o.1.1 = true
      · exfalso
        have hod : olddefOK w = true := by
          have hq := olddef_fst mres.2 w
          rw [ho] at hq
          rw [hq] at ho1
          simpa using ho1
        have hmodok : modifyOK (configAfterEnsure kc.fs w) w = true := by
          have hq := modify_fst b.2 w changes
          rw [hm] at hq
          have hq2 : (b.2.fs.config.isSome && w.writeExc.isNone) = true := by
            rw [← hq, hm1]
          rw [hbc] at hq2
          simp only [Option.isSome_some, Bool.true_and] at hq2
          simp [modifyOK, hcae, hq2]
        rw [apply_fst] at h4
        simp [applyResult, hval, hens, hmodok, hod] at h4
      · rw [Bool.not_eq_true] at ho1
        rw [if_pos (show (!o.1.1) = true by rw [ho1]; simp)]
        exact restore_config_eq o.2 w c hob h3
    · rw [Bool.not_eq_true] at hm1
      rw [if_pos (show (!mres.1) = true by rw [hm1]; simp)]
      exact restore_config_eq mres.2 w c hmb h3
  · have hv1 : v.1 = false := by
      rw [← hv, validate_fst, hfs1]
      rw [Bool.not_eq_true] at hval
      exact hval
    rw [if_pos (show (!v.1) = true by rw [hv1]; simp)]
    show v.2.fs.config = some c
    rw [hvfs, h1]

/-- C2: when validation of the kernel source directory fails, the workflow
returns exactly `(false, "Invalid kernel source directory")`, touches
neither `.config` nor `.config.backup` (the whole filesystem is unchanged),
and invokes no external process. -/
theorem claim_C2 (kc : KC) (w : World) (changes : ConfigMap)
    (h : validOK kc.fs = false) :
    (apply_config_changes kc w changes).1 = (false, "Invalid kernel source directory")
    ∧ (apply_config_changes kc w changes).2.fs = kc.fs
    ∧ (apply_config_changes kc w changes).2.procs = kc.procs := by
  have hv1 : (validate_kernel_source (add_status kc
      ("Applying config changes for kernel " ++ kc.kernel_version))).1 = false := by
    rw [validate_fst, add_status_fs, h]
  refine ⟨?_, ?_, ?_⟩
  · rw [apply_fst]
    simp [applyResult, h]
  · simp only [apply_config_changes]
    rw [if_pos (show (!(validate_kernel_source (add_status kc
        ("Applying config changes for kernel " ++ kc.kernel_version))).1) = true by
      rw [hv1]; simp)]
    show (validate_kernel_source _).2.fs = kc.fs
    rw [validate_snd_fs, add_status_fs]
  · simp only [apply_config_changes]
    rw [if_pos (show (!(validate_kernel_source (add_status kc
        ("Applying config changes for kernel " ++ kc.kernel_version))).1) = true by
      rw [hv1]; simp)]
    show (validate_kernel_source _).2.procs = kc.procs
    rw [validate_snd_procs, add_status_procs]

/-- C6: `validate_kernel_source` succeeds exactly when the directory exists
and at least one of the markers `Kconfig`, `Makefile`, `init` is present
(any one suffices). -/
theorem claim_C6 (kc : KC) :
    (validate_kernel_source kc).1 = true ↔
      (kc.fs.dirExists = true ∧
        ("Kconfig" ∈ kc.fs.entries ∨ "Makefile" ∈ kc.fs.entries
          ∨ "init" ∈ kc.fs.entries)) := by
  rw [validate_fst]
  unfold validOK
  simp [List.any_eq_true]

/-- C7: the `(success, message)` value returned by `apply_config_changes` is
unchanged when the restore copy is made to raise any exception, and
unchanged under any content of the pre-existing `.config.backup` file — a
failing rollback never alters the reported result. -/
theorem claim_C7 (kc : KC) (w : World) (changes : ConfigMap) (e : Option String)
    (b : Option (List Char)) :
    (apply_config_changes kc { w with restoreCopyExc := e } changes).1
      = (apply_config_changes kc w changes).1
    ∧ (apply_config_changes { kc with fs := { kc.fs with backup := b } } w changes).1
      = (apply_config_changes kc w changes).1 := by
  constructor
  · rw [apply_fst, apply_fst]
    cases w
    rfl
  · rw [apply_fst, apply_fst]
    cases kc with
    | mk d ver fs log procs =>
      cases fs
      rfl

theorem add_status_log (kc : KC) (m : String) :
    (add_status kc m).status_messages =
      if (kc.status_messages ++ [m]).length > 10 then (kc.status_messages ++ [m]).drop 1
      else kc.status_messages ++ [m] := rfl

theorem lastN_append_left (n : Nat) (x y : List α) :
    lastN n (lastN n x ++ y) = lastN n (x ++ y) := by
  by_cases hx : x.length ≤ n
  · have ha : x.length - n = 0 := Nat.sub_eq_zero_of_le hx
    unfold lastN
    rw [ha, List.drop_zero]
  · have hlt : n < x.length := Nat.lt_of_not_le hx
    unfold lastN
    have h1 : x.drop (x.length - n) ++ y = (x ++ y).drop (x.length - n) := by
      rw [List.drop_append_of_le_length (Nat.sub_le _ _)]
    rw [h1, List.drop_drop]
    congr 1
    simp only [List.length_drop, List.length_append]
    omega

theorem foldl_add_status_log (msgs : List String) :
    ∀ kc : KC, kc.status_messages.length ≤ 10 →
      (msgs.foldl add_status kc).status_messages = lastN 10 (kc.status_messages ++ msgs)
      ∧ (msgs.foldl add_status kc).status_messages.length ≤ 10 := by
  induction msgs with
  | nil =>
    intro kc h
    refine ⟨?_, h⟩
    unfold lastN
    rw [List.foldl_nil, List.append_nil, Nat.sub_eq_zero_of_le h, List.drop_zero]
  | cons m ms ih =>
    intro kc h
    rw [List.foldl_cons]
    have hlen : (add_status kc m).status_messages.length ≤ 10 := by
      rw [add_status_log]
      split
      · simpa using h
      · rename_i hle
        simp only [List.length_append, List.length_cons, List.length_nil] at hle ⊢
        omega
    have hval : (add_status kc m).status_messages = lastN 10 (kc.status_messages ++ [m]) := by
      rw [add_status_log]
      unfold lastN
      split
      · rename_i hgt
        have hL : (kc.status_messages ++ [m]).length - 10 = 1 := by
          simp only [List.length_append, List.length_cons, List.length_nil] at hgt ⊢
          omega
        rw [hL]
      · rename_i hle
        have hL : (kc.status_messages ++ [m]).length - 10 = 0 := by
          simp only [List.length_append, List.length_cons, List.length_nil] at hle ⊢
          omega
        rw [hL, List.drop_zero]
    have hmain := ih (add_status kc m) hlen
    refine ⟨?_, hmain.2⟩
    rw [hmain.1, hval, lastN_append_left, List.append_assoc, List.singleton_append]

/-- C5: starting from a fresh session, any sequence of more than ten
`add_status` calls retains exactly the last ten messages in call order, the
log never exceeds ten entries after any step, and `get_status` returns the
last five of the retained messages, oldest first, joined by newline. -/
theorem claim_C5 (dir ver : String) (fs : FS) (msgs : List String)
    (h : msgs.length > 10) :
    (msgs.foldl add_status (initKC dir ver fs)).status_messages = lastN 10 msgs
    ∧ get_status (msgs.foldl add_status (initKC dir ver fs))
        = String.intercalate "\n" (lastN 5 msgs)
    ∧ ∀ i, ((msgs.take i).foldl add_status (initKC dir ver fs)).status_messages.length
        ≤ 10 := by
  have hinit : (initKC dir ver fs).status_messages.length ≤ 10 := by
    simp [initKC]
  have hmain := foldl_add_status_log msgs (initKC dir ver fs) hinit
  have hlog : (msgs.foldl add_status (initKC dir ver fs)).status_messages
      = lastN 10 msgs := by
    rw [hmain.1]
    rfl
  refine ⟨hlog, ?_, ?_⟩
  · unfold get_status
    rw [hlog]
    congr 1
    unfold lastN
    rw [List.drop_drop]
    congr 1
    simp only [List.length_drop]
    omega
  · intro i
    exact (foldl_add_status_log (msgs.take i) (initKC dir ver fs) hinit).2

/-- C3 (amended): the `write_config` → `read_config` round trip reproduces a
map exactly (as a dict) provided its keys are distinct and its keys and
values are round-trippable: keys nonempty, stripped, free of `=`, newlines
and carriage returns, not beginning `#` or `//`; values stripped and free of
newlines and carriage returns.  (The bare "no empty keys" condition of the
claim is not sufficient; see the counterexample.) -/
theorem claim_C3 (kc : KC) (w : World) (m : ConfigMap)
    (hw : w.writeExc = none) (hr : w.readExc = none)
    (hnd : (m.map Prod.fst).Nodup)
    (hg : ∀ p ∈ m, goodKey p.1 = true ∧ goodVal p.2 = true) :
    mapEquiv (read_config (write_config kc w m).2 w).1 m = true := by
  have hc : (write_config kc w m).2.fs.config = some (serializeConfig m) :=
    (write_spec kc w m).2.2.2.2 hw
  rw [read_fst _ w hc hr]
  exact mapEquiv_parse_serialize hnd
    (fun p hp => ⟨rtKey_of_goodKey (hg p hp).1, rtVal_of_goodVal (hg p hp).2⟩)

/-- C4 (amended): on an existing `.config` parsing to `old`, a successful
`modify_config changes` call leaves the file parsing to `old ∪ changes`
with `changes` taking precedence — provided reading the file raises no I/O
error (a swallowed read error would make the write drop `old`) and the
changes are round-trippable keys/values; and with no `.config`,
`modify_config` returns `false` having only logged a message. -/
theorem claim_C4 (kc : KC) (w : World) (changes : ConfigMap) :
    (∀ s : List Char, kc.fs.config = some s → w.readExc = none →
      (∀ p ∈ changes, goodKey p.1 = true ∧ goodVal p.2 = true) →
      (modify_config kc w changes).1 = true →
      ∃ t, (modify_config kc w changes).2.fs.config = some t
        ∧ mapEquiv (parseConfig t) (applyChanges (parseConfig s) changes) = true)
    ∧ (kc.fs.config = none →
        modify_config kc w changes = (false, add_status kc "No config file to modify")) := by
  constructor
  · intro s hs hr hgood hsucc
    have hw : w.writeExc = none := by
      rw [modify_fst] at hsucc
      rw [Bool.and_eq_true] at hsucc
      exact Option.isNone_iff_eq_none.mp hsucc.2
    have hm := modify_success_content kc w changes hs hr hw
    refine ⟨serializeConfig (applyChanges (parseConfig s) changes), hm.2, ?_⟩
    apply mapEquiv_parse_serialize
    · exact applyChanges_nodup (parseConfig_nodup s)
    · exact applyChanges_rt (parseConfig_rt s)
        (fun p hp => ⟨rtKey_of_goodKey (hgood p hp).1, rtVal_of_goodVal (hgood p hp).2⟩)
  · intro hnone
    unfold modify_config
    rw [hnone]
    rfl

/-- C8: with distinct keys, `write_config` writes exactly the serialization
whose lines are the fixed header block followed by the `KEY=VALUE` entries
with keys in strictly ascending lexical order, and the serialization is a
function of the map contents alone: any permutation of the entries produces
the same file text. -/
theorem claim_C8 (kc : KC) (w : World) (m mp : ConfigMap)
    (hw : w.writeExc = none) (hnd : (m.map Prod.fst).Nodup)
    (hp : List.Perm mp m) :
    (write_config kc w m).2.fs.config = some (serializeConfig m)
    ∧ serializeConfig mp = serializeConfig m
    ∧ List.Pairwise (fun a b => strLt a b = true) (sortKeys m) := by
  refine ⟨(write_spec kc w m).2.2.2.2 hw, ?_, ?_⟩
  · have hndp : (mp.map Prod.fst).Nodup := ((hp.map Prod.fst).nodup_iff).mpr hnd
    have hkeys : sortKeys mp = sortKeys m := sortStrings_eq_of_perm (hp.map Prod.fst)
    unfold serializeConfig configLines
    rw [hkeys]
    congr 1
    congr 1
    apply List.map_congr_left
    intro k hk
    unfold renderLine lookupD
    rw [lookupKV_perm hp hndp k]
  · have hsorted := sortStrings_sorted (m.map Prod.fst)
    have hnd2 : (sortKeys m).Nodup :=
      ((sortStrings_perm (m.map Prod.fst)).nodup_iff).mpr hnd
    exact (hsorted.and hnd2).imp (fun h => strLt_iff.mpr ⟨h.1, h.2⟩)

/-- C9: for every session, world (including worlds in which every I/O
primitive raises and both external commands fail in any way) and changes
map, `apply_config_changes` returns a structured `(success, message)` pair
of one of five fixed shapes — no oracle can make it produce anything other
than a structured result — and `configure_kernel_with_changes` is exactly
the workflow on a fresh session. -/
theorem claim_C9 (kc : KC) (w : World) (changes : ConfigMap) (dir ver : String)
    (fs : FS) :
    ((apply_config_changes kc w changes).1
        = (true, "Successfully applied and validated config changes")
      ∨ (apply_config_changes kc w changes).1 = (false, "Invalid kernel source directory")
      ∨ (apply_config_changes kc w changes).1 = (false, "Failed to create initial config")
      ∨ (apply_config_changes kc w changes).1 = (false, "Failed to apply config changes")
      ∨ ∃ msg, (apply_config_changes kc w changes).1
          = (false, "Config validation failed: " ++ msg))
    ∧ configure_kernel_with_changes dir ver fs w changes
        = apply_config_changes (initKC dir ver fs) w changes := by
  refine ⟨?_, rfl⟩
  rw [apply_fst]
  unfold applyResult
  by_cases h1 : validOK kc.fs = true
  · by_cases h2 : ensureOK kc.fs w = true
    · by_cases h3 : modifyOK (configAfterEnsure kc.fs w) w = true
      · by_cases h4 : olddefOK w = true
        · left
          simp [h1, h2, h3, h4]
        · rw [Bool.not_eq_true] at h4
          right; right; right; right
          exact ⟨olddefMsg w, by simp [h1, h2, h3, h4]⟩
      · rw [Bool.not_eq_true] at h3
        right; right; right; left
        simp [h1, h2, h3]
    · rw [Bool.not_eq_true] at h2
      right; right; left
      simp [h1, h2]
  · rw [Bool.not_eq_true] at h1
    right; left
    simp [h1]

/-- C10: a successful `modify_config` with an empty changes map still
rewrites `.config` in full to its canonical serialization: the parsed
entries re-emitted in sorted key order under the fixed generated header,
with every comment and blank line of the previous content dropped. -/
theorem claim_C10 (kc : KC) (w : World) {s : List Char}
    (hs : kc.fs.config = some s) (hr : w.readExc = none)
    (hw : w.writeExc = none) :
    (modify_config kc w []).1 = true
    ∧ (modify_config kc w []).2.fs.config = some (serializeConfig (parseConfig s)) := by
  have hm := modify_success_content kc w [] hs hr hw
  exact ⟨hm.1, hm.2⟩

/-! ## Concrete scenarios: counterexamples and witnesses -/

def fsCex : FS :=
  { dirExists := true, entries := ["Kconfig", "Makefile", "init"],
    config := some ("CONFIG_ORIGINAL=y\n".data), backup := none }

def wBenign : World :=
  { backupCopyExc := none, restoreCopyExc := none, readExc := none, writeExc := none,
    defconfig := .exits 0 "", defconfigWrites := none,
    olddefconfig := .exits 0 "", olddefconfigWrites := none }

def wFailOlddef : World := { wBenign with olddefconfig := .exits 1 "dependency error" }

def wCexC1 : World := { wFailOlddef with backupCopyExc := some "Permission denied" }

def kcCex : KC := initKC "/usr/src/linux" "6.16" fsCex

def kcNoDir : KC := initKC "/missing" "6.16"
  { dirExists := false, entries := [], config := none, backup := none }

def kcNoCfg : KC := initKC "/usr/src/linux" "6.16"
  { dirExists := true, entries := ["Makefile"], config := none, backup := none }

def mGood : ConfigMap := [("CONFIG_B", "y"), ("CONFIG_A", "\"-custom\"")]

def mPerm : ConfigMap := [("CONFIG_A", "\"-custom\""), ("CONFIG_B", "y")]

def mBad : ConfigMap := [("#A", "y")]

def msgs12 : List String :=
  ["m01", "m02", "m03", "m04", "m05", "m06", "m07", "m08", "m09", "m10", "m11", "m12"]

def sComment : List Char := "# header comment\n\nCONFIG_B=y\nCONFIG_A=m\n".data

def kcComment : KC := initKC "/usr/src/linux" "6.16"
  { dirExists := true, entries := ["Makefile"], config := some sComment, backup := none }

/-- C1 counterexample: with a valid source tree, an existing `.config`, a
backup attempt that raises (and so is swallowed), a successful modification
and a failing `make olddefconfig`, the workflow returns a failure yet leaves
`.config` different from its pre-change content — the caller-supplied
`CONFIG_TEST=y` persists. -/
theorem claim_C1_cex :
    (apply_config_changes kcCex wCexC1 [("CONFIG_TEST", "y")]).1.1 = false
    ∧ (apply_config_changes kcCex wCexC1 [("CONFIG_TEST", "y")]).2.fs.config
        ≠ kcCex.fs.config
    ∧ lookupKV (parseConfig
        ((apply_config_changes kcCex wCexC1 [("CONFIG_TEST", "y")]).2.fs.config.getD []))
        "CONFIG_TEST" = some "y" := by
  decide

theorem claim_C1_witness :
    kcCex.fs.config = some ("CONFIG_ORIGINAL=y\n".data)
    ∧ wFailOlddef.backupCopyExc = none
    ∧ wFailOlddef.restoreCopyExc = none
    ∧ (apply_config_changes kcCex wFailOlddef [("CONFIG_TEST", "y")]).1.1 = false
    ∧ (apply_config_changes kcCex wFailOlddef [("CONFIG_TEST", "y")]).2.fs.config
        = some ("CONFIG_ORIGINAL=y\n".data) :=
  ⟨rfl, rfl, rfl, by decide,
    claim_C1_amended kcCex wFailOlddef [("CONFIG_TEST", "y")] rfl rfl rfl (by decide)⟩

theorem claim_C2_witness :
    validOK kcNoDir.fs = false
    ∧ (apply_config_changes kcNoDir wBenign []).1
        = (false, "Invalid kernel source directory")
    ∧ (apply_config_changes kcNoDir wBenign []).2.fs = kcNoDir.fs
    ∧ (apply_config_changes kcNoDir wBenign []).2.procs = kcNoDir.procs :=
  ⟨by decide, (claim_C2 kcNoDir wBenign [] (by decide)).1,
    (claim_C2 kcNoDir wBenign [] (by decide)).2.1,
    (claim_C2 kcNoDir wBenign [] (by decide)).2.2⟩

/-- C3 counterexample: the map `{"#A": "y"}` has no empty keys, yet writing
it and reading it back loses the entry, because the written line `#A=y` is
skipped as a comment by `read_config`. -/
theorem claim_C3_cex :
    (∀ p ∈ mBad, p.1 ≠ "")
    ∧ mapEquiv (read_config (write_config kcCex wBenign mBad).2 wBenign).1 mBad
        = false := by
  decide

theorem claim_C3_witness :
    wBenign.writeExc = none ∧ wBenign.readExc = none
    ∧ (mGood.map Prod.fst).Nodup
    ∧ (∀ p ∈ mGood, goodKey p.1 = true ∧ goodVal p.2 = true)
    ∧ mapEquiv (read_config (write_config kcCex wBenign mGood).2 wBenign).1 mGood
        = true :=
  ⟨rfl, rfl, by decide, by decide,
    claim_C3 kcCex wBenign mGood rfl rfl (by decide) (by decide)⟩

/-- C4 counterexample: on a `.config` containing `CONFIG_ORIGINAL=y`,
`modify_config {"#B": "y"}` succeeds, but the file's parsed content is not
`old ∪ changes`: the written line `#B=y` is dropped by the parser as a
comment. -/
theorem claim_C4_cex :
    (modify_config kcCex wBenign [("#B", "y")]).1 = true
    ∧ mapEquiv
        (parseConfig ((modify_config kcCex wBenign [("#B", "y")]).2.fs.config.getD []))
        (applyChanges (parseConfig ("CONFIG_ORIGINAL=y\n".data)) [("#B", "y")])
        = false := by
  decide

theorem claim_C4_witness :
    (kcCex.fs.config = some ("CONFIG_ORIGINAL=y\n".data)
      ∧ wBenign.readExc = none
      ∧ (∀ p ∈ mGood, goodKey p.1 = true ∧ goodVal p.2 = true)
      ∧ (modify_config kcCex wBenign mGood).1 = true
      ∧ ∃ t, (modify_config kcCex wBenign mGood).2.fs.config = some t
          ∧ mapEquiv (parseConfig t)
              (applyChanges (parseConfig ("CONFIG_ORIGINAL=y\n".data)) mGood) = true)
    ∧ (kcNoCfg.fs.config = none
      ∧ modify_config kcNoCfg wBenign mGood
          = (false, add_status kcNoCfg "No config file to modify")) :=
  ⟨⟨rfl, rfl, by decide, by decide,
      (claim_C4 kcCex wBenign mGood).1 ("CONFIG_ORIGINAL=y\n".data) rfl rfl
        (by decide) (by decide)⟩,
    ⟨rfl, (claim_C4 kcNoCfg wBenign mGood).2 rfl⟩⟩

theorem claim_C5_witness :
    msgs12.length > 10
    ∧ ((msgs12.foldl add_status (initKC "/usr/src/linux" "6.16" fsCex)).status_messages
        = lastN 10 msgs12
      ∧ get_status (msgs12.foldl add_status (initKC "/usr/src/linux" "6.16" fsCex))
          = String.intercalate "\n" (lastN 5 msgs12)
      ∧ ∀ i, ((msgs12.take i).foldl add_status
            (initKC "/usr/src/linux" "6.16" fsCex)).status_messages.length ≤ 10) :=
  ⟨by decide, claim_C5 "/usr/src/linux" "6.16" fsCex msgs12 (by decide)⟩

theorem claim_C8_witness :
    wBenign.writeExc = none ∧ (mGood.map Prod.fst).Nodup ∧ List.Perm mPerm mGood
    ∧ ((write_config kcCex wBenign mGood).2.fs.config = some (serializeConfig mGood)
      ∧ serializeConfig mPerm = serializeConfig mGood
      ∧ List.Pairwise (fun a b => strLt a b = true) (sortKeys mGood)) :=
  ⟨rfl, by decide, by decide,
    claim_C8 kcCex wBenign mGood mPerm rfl (by decide) (by decide)⟩

theorem claim_C10_witness :
    kcComment.fs.config = some sComment ∧ wBenign.readExc = none
    ∧ wBenign.writeExc = none
    ∧ ((modify_config kcComment wBenign []).1 = true
      ∧ (modify_config kcComment wBenign []).2.fs.config
          = some (serializeConfig (parseConfig sComment))) :=
  ⟨rfl, rfl, rfl, claim_C10 kcComment wBenign rfl rfl rfl⟩
